import Mathlib

/-!
Verification of the command-line argument resolution engine of
`internal/buf/cmd/buf/internal/protoc/flags.go`.

Go strings are modelled as `List Char` (called `Str` below), so that every
operation is a plain executable function on lists.  Go `map`s are modelled as
association lists in insertion order; Go map iteration order is unspecified,
the association list fixes a deterministic refinement of it.  The recursive
argument-file expansion of `buildRec` terminates because the visited-path set
grows on every recursive call; here the recursion is bounded by an explicit
`fuel` parameter, and every statement about it is made for sufficiently large
fuel.  File reads (`ioutil.ReadFile`) are modelled by lookup in an explicit
file-system association list.  The `pflag` library is external to the
repository; its parse loop is modelled on the flags the engine registers in
`Bind`: long flags `--name=value` / `--name value`, boolean flags taking no
value, the shorthands `-I` and `-o`, the terminator `--`, interspersed
positional arguments, and the name-normalization hook (which is where the
engine's `Normalize` captures the dynamically named `_out`/`_opt` plugin
directives); each flag occurrence contributes exactly one value.  Go's
`strings.TrimSpace` is modelled on ASCII whitespace.
-/

set_option synthInstance.maxSize 512

/-! ## Strings as character lists -/

abbrev Str := List Char

def str (s : String) : Str := s.data

/-- Go `strings.HasPrefix s pre` (arguments: the string, then the candidate
prefix of it). -/
def hasPre : Str → Str → Bool
  | _, [] => true
  | [], _ :: _ => false
  | x :: xs, y :: ys => x = y && hasPre xs ys

def hasSuf (s suf : Str) : Bool := hasPre s.reverse suf.reverse

/-- Go `strings.TrimPrefix`. -/
def trimPre (s pre : Str) : Str := if hasPre s pre then s.drop pre.length else s

/-- Go `strings.TrimSuffix`. -/
def trimSuf (s suf : Str) : Str :=
  if hasSuf s suf then s.take (s.length - suf.length) else s

/-- Go `strings.Split s (String.singleton c)`: split on every occurrence of
the (single-character) separator. -/
def splitOnChar (c : Char) : Str → List Str
  | [] => [[]]
  | x :: xs =>
    if x = c then [] :: splitOnChar c xs
    else
      match splitOnChar c xs with
      | [] => [[x]]
      | y :: ys => (x :: y) :: ys

/-- Go `strings.SplitN s (String.singleton c) 2`: split at the first
occurrence of the separator only. -/
def cut2 (c : Char) : Str → List Str
  | [] => [[]]
  | x :: xs =>
    if x = c then [[], xs]
    else
      match cut2 c xs with
      | [] => [[x]]
      | y :: ys => (x :: y) :: ys

/-- ASCII fragment of Go `unicode.IsSpace` (the characters relevant to
`strings.TrimSpace` on argument files). -/
def goIsSpace (c : Char) : Bool :=
  c = ' ' || c = '\t' || c = '\n' || c = '\r' || c = Char.ofNat 11 || c = Char.ofNat 12

/-- Go `strings.TrimSpace`. -/
def trimSpace (s : Str) : Str :=
  ((s.dropWhile goIsSpace).reverse.dropWhile goIsSpace).reverse

/-- Go `filepath.Base` on a Unix path. -/
def filepathBase (path : Str) : Str :=
  if path = [] then ['.']
  else
    let p := (path.reverse.dropWhile (fun c => c = '/')).reverse
    let b := (p.reverse.takeWhile (fun c => ¬ c = '/')).reverse
    if b = [] then ['/'] else b

/-- Go `strconv.ParseBool`. -/
def parseBoolStr (s : Str) : Option Bool :=
  if s = str "1" ∨ s = str "t" ∨ s = str "T" ∨ s = str "true" ∨ s = str "TRUE" ∨ s = str "True" then
    some true
  else if s = str "0" ∨ s = str "f" ∨ s = str "F" ∨ s = str "false" ∨ s = str "FALSE" ∨ s = str "False" then
    some false
  else none

/-! ## Association lists (Go maps in insertion order) -/

def lookupA {α : Type} : List (Str × α) → Str → Option α
  | [], _ => none
  | (k, v) :: rest, key => if k = key then some v else lookupA rest key

def updateA {α : Type} : List (Str × α) → Str → α → List (Str × α)
  | [], key, v => [(key, v)]
  | (k, w) :: rest, key, v =>
    if k = key then (k, v) :: rest else (k, w) :: updateA rest key v

/-! ## Data model (`flags.go`) -/

def defaultIncludeDirPaths : List Str := [str "."]

def defaultErrorFormat : Str := str "gcc"

/-- The global (non-plugin) flag values; Go struct `flags`. -/
structure flags where
  IncludeDirPaths : List Str
  IncludeImports : Bool
  IncludeSourceInfo : Bool
  PrintFreeFieldNumbers : Bool
  Output : Str
  ErrorFormat : Str
deriving DecidableEq, Repr

/-- Go struct `pluginValue`: indices into `pluginFake` for the captured
`_out` / `_opt` occurrences of one plugin name (-1 when absent). -/
structure pluginValue where
  OutIndex : Int
  OptIndex : Int
deriving DecidableEq, Repr

def newPluginValue : pluginValue := { OutIndex := -1, OptIndex := -1 }

/-- Go struct `pluginInfo` (defined next to `flags.go` in the same package):
the resolved per-plugin invocation info. -/
structure pluginInfo where
  Out : Str
  Opt : Str
  Path : Str
deriving DecidableEq, Repr

def newPluginInfo : pluginInfo := { Out := [], Opt := [], Path := [] }

abbrev pluginMap := List (Str × pluginInfo)

/-- Go struct `env`. -/
structure env extends flags where
  PluginNameToPluginInfo : pluginMap
  FilePaths : List Str
deriving DecidableEq, Repr

/-- Go struct `flagsBuilder`. -/
structure flagsBuilder extends flags where
  PluginPathValues : List Str
  Encode : Str
  Decode : Str
  DecodeRaw : Bool
  DescriptorSetIn : List Str
  pluginFake : List Str
  pluginNameToValue : List (Str × pluginValue)
deriving DecidableEq, Repr

def newFlagsBuilder : flagsBuilder :=
  { IncludeDirPaths := [], IncludeImports := false, IncludeSourceInfo := false,
    PrintFreeFieldNumbers := false, Output := [], ErrorFormat := [],
    PluginPathValues := [], Encode := [], Decode := [], DecodeRaw := false,
    DescriptorSetIn := [], pluginFake := [], pluginNameToValue := [] }

/-- The error taxonomy of the engine (the `new...Error` constructors of the
package), plus the propagated-unchanged externals: a failed argument-file
read, a `pflag` parse error, and exhaustion of the explicit recursion fuel
(which has no Go counterpart: the Go recursion is bounded by the growing
visited set). -/
inductive parseErr
  | badFlagSyntax (arg : Str)
  | unknownFlag (name : Str)
  | unknownShorthand (c : Char)
  | flagNeedsArgument (name : Str)
  | invalidBoolValue (name value : Str)
deriving DecidableEq, Repr

inductive buildError
  | errArgEmpty
  | recursiveReference (path : Str)
  | outMultipleColons (pluginName out : Str)
  | duplicateOut (pluginName : Str)
  | duplicateOpt (pluginName : Str)
  | pluginPathValueEmpty
  | pluginPathValueInvalid (value : Str)
  | badPluginPathName (name : Str)
  | duplicatePluginPath (pluginName : Str)
  | cannotSpecifyOptWithoutOut (pluginName : Str)
  | cannotSpecifyPathWithoutOut (pluginName : Str)
  | encodeNotSupported
  | decodeNotSupported
  | decodeRawNotSupported
  | descriptorSetInNotSupported
  | noInputFiles
  | readFile (path : Str)
  | flagParse (e : parseErr)
  | outOfFuel
deriving DecidableEq, Repr

/-- The modelled file system backing `ioutil.ReadFile`. -/
abbrev fileSys := List (Str × Str)

/-! ## Plugin directive capture (`Normalize` / `pluginFakeParse`) -/

/-- Go `(*flagsBuilder).pluginFakeParse`: record, for the plugin name obtained
by stripping `suffix`, the index that the about-to-be-appended raw value will
occupy in the shared `pluginFake` sequence.  A previously recorded index for
the same plugin name and kind is overwritten. -/
def pluginFakeParse (f : flagsBuilder) (name suffix : Str) (isOut : Bool) : flagsBuilder :=
  let pluginName := trimSuf name suffix
  let pv := (lookupA f.pluginNameToValue pluginName).getD newPluginValue
  let index : Int := f.pluginFake.length
  let pv := if isOut then { pv with OutIndex := index } else { pv with OptIndex := index }
  { f with pluginNameToValue := updateA f.pluginNameToValue pluginName pv }

/-- Go `(*flagsBuilder).Normalize`: the name-normalization hook installed on
the flag parser.  Besides its result it mutates the builder through
`pluginFakeParse`, hence the pair. -/
def Normalize (f : flagsBuilder) (name : Str) : flagsBuilder × Str :=
  if ¬ name = str "descriptor_set_out" ∧ hasSuf name (str "_out") then
    (pluginFakeParse f name (str "_out") true, str "protoc_plugin_fake")
  else if hasSuf name (str "_opt") then
    (pluginFakeParse f name (str "_opt") false, str "protoc_plugin_fake")
  else
    (f, name.map (fun c => if c = '-' then '_' else c))

/-! ## The flag registry (`Bind`) and the modelled pflag parse loop -/

inductive flagKind
  | stringFlag
  | boolFlag
  | sliceFlag
deriving DecidableEq, Repr

/-- The flags registered in Go `(*flagsBuilder).Bind`, keyed by normalized
long name. -/
def lookupFlag (name : Str) : Option flagKind :=
  if name = str "proto_path" then some .sliceFlag
  else if name = str "include_imports" then some .boolFlag
  else if name = str "include_source_info" then some .boolFlag
  else if name = str "print_free_field_numbers" then some .boolFlag
  else if name = str "descriptor_set_out" then some .stringFlag
  else if name = str "error_format" then some .stringFlag
  else if name = str "plugin" then some .sliceFlag
  else if name = str "protoc_plugin_fake" then some .sliceFlag
  else if name = str "encode" then some .stringFlag
  else if name = str "decode" then some .stringFlag
  else if name = str "decode_raw" then some .boolFlag
  else if name = str "descriptor_set_in" then some .sliceFlag
  else none

/-- The shorthand letters registered in `Bind` (`-I` for `proto_path`,
`-o` for `descriptor_set_out`). -/
def lookupShorthand (c : Char) : Option Str :=
  if c = 'I' then some (str "proto_path")
  else if c = 'o' then some (str "descriptor_set_out")
  else none

/-- Store one parsed flag value into its slot, as the `pflag` `Value.Set`
calls of the bindings in `Bind` do: slice flags append, string flags
overwrite, boolean flags parse their value. -/
def setFlag (f : flagsBuilder) (name value : Str) : Except parseErr flagsBuilder :=
  if name = str "proto_path" then
    .ok { f with IncludeDirPaths := f.IncludeDirPaths ++ [value] }
  else if name = str "include_imports" then
    match parseBoolStr value with
    | some b => .ok { f with IncludeImports := b }
    | none => .error (.invalidBoolValue name value)
  else if name = str "include_source_info" then
    match parseBoolStr value with
    | some b => .ok { f with IncludeSourceInfo := b }
    | none => .error (.invalidBoolValue name value)
  else if name = str "print_free_field_numbers" then
    match parseBoolStr value with
    | some b => .ok { f with PrintFreeFieldNumbers := b }
    | none => .error (.invalidBoolValue name value)
  else if name = str "descriptor_set_out" then .ok { f with Output := value }
  else if name = str "error_format" then .ok { f with ErrorFormat := value }
  else if name = str "plugin" then
    .ok { f with PluginPathValues := f.PluginPathValues ++ [value] }
  else if name = str "protoc_plugin_fake" then
    .ok { f with pluginFake := f.pluginFake ++ [value] }
  else if name = str "encode" then .ok { f with Encode := value }
  else if name = str "decode" then .ok { f with Decode := value }
  else if name = str "decode_raw" then
    match parseBoolStr value with
    | some b => .ok { f with DecodeRaw := b }
    | none => .error (.invalidBoolValue name value)
  else if name = str "descriptor_set_in" then
    .ok { f with DescriptorSetIn := f.DescriptorSetIn ++ [value] }
  else .error (.unknownFlag name)

/-- One long flag token `--name[=value]`: normalize the name (capturing
plugin directives), look the flag up, extract the value (inline, implied
`true` for booleans, or the following argument), and set it.  The returned
Bool reports whether the following argument was consumed as the value. -/
def longFlagStep (f : flagsBuilder) (s : Str) (rest : List Str) :
    Except parseErr (flagsBuilder × Bool) :=
  let nameValue := s.drop 2
  if nameValue = [] ∨ nameValue.headD ' ' = '-' ∨ nameValue.headD ' ' = '=' then
    .error (.badFlagSyntax s)
  else
    match cut2 '=' nameValue with
    | [] => .error (.badFlagSyntax s)
    | name :: inlineValue =>
      let fn := Normalize f name
      let f := fn.1
      let nname := fn.2
      match lookupFlag nname with
      | none => .error (.unknownFlag name)
      | some kind =>
        match inlineValue with
        | value :: _ =>
          match setFlag f nname value with
          | .error e => .error e
          | .ok f => .ok (f, false)
        | [] =>
          match kind with
          | .boolFlag =>
            match setFlag f nname (str "true") with
            | .error e => .error e
            | .ok f => .ok (f, false)
          | _ =>
            match rest with
            | value :: _ =>
              match setFlag f nname value with
              | .error e => .error e
              | .ok f => .ok (f, true)
            | [] => .error (.flagNeedsArgument name)

/-- One shorthand token `-c...`: both registered shorthands take a value
(attached as `-cvalue` or `-c=value`, or the following argument). -/
def shortFlagStep (f : flagsBuilder) (s : Str) (rest : List Str) :
    Except parseErr (flagsBuilder × Bool) :=
  let shorthands := s.drop 1
  match lookupShorthand (shorthands.headD ' ') with
  | none => .error (.unknownShorthand (shorthands.headD ' '))
  | some name =>
    if 2 < shorthands.length ∧ shorthands.getD 1 ' ' = '=' then
      match setFlag f name (shorthands.drop 2) with
      | .error e => .error e
      | .ok f => .ok (f, false)
    else if 1 < shorthands.length then
      match setFlag f name (shorthands.drop 1) with
      | .error e => .error e
      | .ok f => .ok (f, false)
    else
      match rest with
      | value :: _ =>
        match setFlag f name value with
        | .error e => .error e
        | .ok f => .ok (f, true)
      | [] => .error (.flagNeedsArgument name)

/-- The modelled pflag parse loop (`FlagSet.Parse` on the flag set built by
`Bind` with the `Normalize` hook installed): returns the builder after all
flag side effects together with the positional (non-flag) arguments in
order.  When a flag step consumed the following argument as its value, the
loop continues behind it (the `.ok (f, true)` arms; a step can only report
this when a following argument exists, so the `[]` arm there is dead). -/
def parseArgs (f : flagsBuilder) : List Str → Except parseErr (flagsBuilder × List Str)
  | [] => .ok (f, [])
  | s :: rest =>
    if s.length = 0 ∨ ¬ s.headD ' ' = '-' ∨ s.length = 1 then
      match parseArgs f rest with
      | .error e => .error e
      | .ok (f, ps) => .ok (f, s :: ps)
    else if s.getD 1 ' ' = '-' then
      if s.length = 2 then .ok (f, rest)
      else
        match longFlagStep f s rest with
        | .error e => .error e
        | .ok (f, false) => parseArgs f rest
        | .ok (f, true) =>
          match rest with
          | [] => .ok (f, [])
          | _ :: rest => parseArgs f rest
    else
      match shortFlagStep f s rest with
      | .error e => .error e
      | .ok (f, false) => parseArgs f rest
      | .ok (f, true) =>
        match rest with
        | [] => .ok (f, [])
        | _ :: rest => parseArgs f rest

/-! ## Resolver (`parsePluginNameToPluginInfo`) -/

/-- The `pluginValue.OutIndex >= 0` arm of the directive loop in Go
`(*flagsBuilder).parsePluginNameToPluginInfo`: split the raw out value on
`:` (one part: the whole value is the out location; two parts: options
before the colon, out location after it; more: error), then record it,
rejecting duplicates. -/
def processOut (fake : List Str) (tbl : pluginMap) (pluginName : Str) (pv : pluginValue) :
    Except buildError pluginMap :=
  if 0 ≤ pv.OutIndex then
    let rawOut := fake.getD pv.OutIndex.toNat []
    match splitOnChar ':' rawOut with
    | [_] => processOutSplit tbl pluginName rawOut []
    | [a, b] => processOutSplit tbl pluginName b a
    | _ => .error (.outMultipleColons pluginName rawOut)
  else .ok tbl
where
  processOutSplit (tbl : pluginMap) (pluginName out opt : Str) : Except buildError pluginMap :=
    let info := (lookupA tbl pluginName).getD newPluginInfo
    if ¬ info.Out = [] then .error (.duplicateOut pluginName)
    else
      let info := { info with Out := out }
      if ¬ opt = [] then
        if ¬ info.Opt = [] then .error (.duplicateOpt pluginName)
        else .ok (updateA tbl pluginName { info with Opt := opt })
      else .ok (updateA tbl pluginName info)

/-- The `pluginValue.OptIndex >= 0` arm of the directive loop. -/
def processOpt (fake : List Str) (tbl : pluginMap) (pluginName : Str) (pv : pluginValue) :
    Except buildError pluginMap :=
  if 0 ≤ pv.OptIndex then
    let info := (lookupA tbl pluginName).getD newPluginInfo
    if ¬ info.Opt = [] then .error (.duplicateOpt pluginName)
    else .ok (updateA tbl pluginName { info with Opt := fake.getD pv.OptIndex.toNat [] })
  else .ok tbl

/-- The loop over `f.pluginNameToValue` in
`(*flagsBuilder).parsePluginNameToPluginInfo` (per entry: out arm, then opt
arm). -/
def processDirectives (fake : List Str) :
    List (Str × pluginValue) → pluginMap → Except buildError pluginMap
  | [], tbl => .ok tbl
  | (pluginName, pv) :: rest, tbl =>
    match processOut fake tbl pluginName pv with
    | .error e => .error e
    | .ok tbl =>
      match processOpt fake tbl pluginName pv with
      | .error e => .error e
      | .ok tbl => processDirectives fake rest tbl

/-- One iteration of the loop over `f.PluginPathValues`: `name=path` or a
bare `path` whose base name is the plugin name; the name must carry the
`protoc-gen-` prefix, which is stripped to obtain the plugin key; a second
explicit path for the same key is rejected. -/
def processPluginPathValue (tbl : pluginMap) (pluginPathValue : Str) :
    Except buildError pluginMap :=
  match cut2 '=' pluginPathValue with
  | [] => .error .pluginPathValueEmpty
  | [p] => processNamed tbl (filepathBase p) p
  | [n, p] => processNamed tbl n p
  | _ => .error (.pluginPathValueInvalid pluginPathValue)
where
  processNamed (tbl : pluginMap) (pluginName pluginPath : Str) : Except buildError pluginMap :=
    if ¬ hasPre pluginName (str "protoc-gen-") then .error (.badPluginPathName pluginName)
    else
      let pluginName := trimPre pluginName (str "protoc-gen-")
      let info := (lookupA tbl pluginName).getD newPluginInfo
      if ¬ info.Path = [] then .error (.duplicatePluginPath pluginName)
      else .ok (updateA tbl pluginName { info with Path := pluginPath })

def processPluginPathValues : List Str → pluginMap → Except buildError pluginMap
  | [], tbl => .ok tbl
  | v :: rest, tbl =>
    match processPluginPathValue tbl v with
    | .error e => .error e
    | .ok tbl => processPluginPathValues rest tbl

/-- Go `(*flagsBuilder).parsePluginNameToPluginInfo`: fold the captured
`_out`/`_opt` directives and then the explicit `--plugin` path values into
the shared plugin table. -/
def parsePluginNameToPluginInfo (f : flagsBuilder) (tbl : pluginMap) :
    Except buildError pluginMap :=
  match processDirectives f.pluginFake f.pluginNameToValue tbl with
  | .error e => .error e
  | .ok tbl => processPluginPathValues f.PluginPathValues tbl

/-! ## Merger, unsupported-flag check, final cross-check -/

/-- Go `(*flagsBuilder).merge` (its Go signature returns an error that is
always nil, so the model is pure): append the sub-expansion's list-valued
fields, or its boolean toggles in, and let its non-empty single-valued
fields override. -/
def merge (f subFlagsBuilder : flagsBuilder) : flagsBuilder :=
  { f with
    IncludeDirPaths := f.IncludeDirPaths ++ subFlagsBuilder.IncludeDirPaths,
    IncludeImports := if subFlagsBuilder.IncludeImports then true else f.IncludeImports,
    IncludeSourceInfo := if subFlagsBuilder.IncludeSourceInfo then true else f.IncludeSourceInfo,
    PrintFreeFieldNumbers :=
      if subFlagsBuilder.PrintFreeFieldNumbers then true else f.PrintFreeFieldNumbers,
    Output := if ¬ subFlagsBuilder.Output = [] then subFlagsBuilder.Output else f.Output,
    ErrorFormat :=
      if ¬ subFlagsBuilder.ErrorFormat = [] then subFlagsBuilder.ErrorFormat else f.ErrorFormat,
    PluginPathValues := f.PluginPathValues ++ subFlagsBuilder.PluginPathValues,
    Encode := if ¬ subFlagsBuilder.Encode = [] then subFlagsBuilder.Encode else f.Encode,
    Decode := if ¬ subFlagsBuilder.Decode = [] then subFlagsBuilder.Decode else f.Decode,
    DecodeRaw := if subFlagsBuilder.DecodeRaw then true else f.DecodeRaw,
    DescriptorSetIn := f.DescriptorSetIn ++ subFlagsBuilder.DescriptorSetIn }

/-- Go `(*flagsBuilder).checkUnsupported`. -/
def checkUnsupported (f : flagsBuilder) : Except buildError Unit :=
  if ¬ f.Encode = [] then .error .encodeNotSupported
  else if ¬ f.Decode = [] then .error .decodeNotSupported
  else if f.DecodeRaw then .error .decodeRawNotSupported
  else if 0 < f.DescriptorSetIn.length then .error .descriptorSetInNotSupported
  else .ok ()

/-- The final per-plugin cross-check loop in Go `(*flagsBuilder).Build`: a
plugin with options or an explicit path but no out location is rejected. -/
def crossCheckPlugins : pluginMap → Except buildError Unit
  | [] => .ok ()
  | (pluginName, info) :: rest =>
    if info.Out = [] ∧ ¬ info.Opt = [] then .error (.cannotSpecifyOptWithoutOut pluginName)
    else if info.Out = [] ∧ ¬ info.Path = [] then .error (.cannotSpecifyPathWithoutOut pluginName)
    else crossCheckPlugins rest

/-! ## Argument expansion (`buildRec`) and `Build` -/

/-- The newline-split, whitespace-trimmed, blank-dropped token list of an
argument file's contents (the body of the `@` branch of `buildRec`). -/
def fileLines (data : Str) : List Str :=
  ((splitOnChar '\n' data).map trimSpace).filter (fun a => ¬ a = [])

/-- The argument loop of Go `(*flagsBuilder).buildRec` (the `for _, arg`
loop): ordinary tokens are appended to the file-path list in order; an
`@path` token is replaced in place by the paths contributed by recursively
expanding the referenced file, whose parsed options are merged into this
builder; a path seen before anywhere in the chain is a recursive reference.
The recursive `buildRec` invocation on the nested file's arguments appears
inlined (resolve the sub-builder's captured plugin flags into the shared
table, then loop over its arguments); `buildRec` below is definitionally
that composition.  The `fuel` argument bounds the recursion (the Go
recursion is bounded by the growing visited set instead) and one unit is
consumed per processed argument and per nesting level. -/
def buildRecArgs (fs : fileSys) :
    Nat → flagsBuilder → List Str → pluginMap → List Str →
    Except buildError (List Str × flagsBuilder × pluginMap × List Str)
  | 0, _, _, _, _ => .error .outOfFuel
  | fuel + 1, f, args, tbl, seen =>
    match args with
    | [] => .ok ([], f, tbl, seen)
    | arg :: rest =>
      if arg = [] then .error .errArgEmpty
      else if ¬ arg.headD ' ' = '@' then
        match buildRecArgs fs fuel f rest tbl seen with
        | .error e => .error e
        | .ok (paths, f, tbl, seen) => .ok (arg :: paths, f, tbl, seen)
      else
        let flagFilePath := arg.drop 1
        if flagFilePath ∈ seen then .error (.recursiveReference flagFilePath)
        else
          let seen := flagFilePath :: seen
          match lookupA fs flagFilePath with
          | none => .error (.readFile flagFilePath)
          | some data =>
            match parseArgs newFlagsBuilder (fileLines data) with
            | .error e => .error (.flagParse e)
            | .ok (subFlagsBuilder, subArgs) =>
              match parsePluginNameToPluginInfo subFlagsBuilder tbl with
              | .error e => .error e
              | .ok tbl =>
                match buildRecArgs fs fuel subFlagsBuilder subArgs tbl seen with
                | .error e => .error e
                | .ok (subPaths, subFlagsBuilder, tbl, seen) =>
                  match buildRecArgs fs fuel (merge f subFlagsBuilder) rest tbl seen with
                  | .error e => .error e
                  | .ok (paths, f, tbl, seen) => .ok (subPaths ++ paths, f, tbl, seen)

/-- Go `(*flagsBuilder).buildRec`: first resolve this builder's captured
plugin flags into the shared table, then walk the argument list. -/
def buildRec (fs : fileSys) (fuel : Nat) (f : flagsBuilder) (args : List Str)
    (tbl : pluginMap) (seen : List Str) :
    Except buildError (List Str × flagsBuilder × pluginMap × List Str) :=
  match parsePluginNameToPluginInfo f tbl with
  | .error e => .error e
  | .ok tbl => buildRecArgs fs fuel f args tbl seen

/-- The defaulting step of `Build`: an empty include-directory list becomes
`defaultIncludeDirPaths` and an empty error format becomes
`defaultErrorFormat`.  (In Go this mutation happens just before the
empty-input check; it does not touch the file-path list, so performing it
on the other side of that check is equivalent.) -/
def applyDefaults (f : flagsBuilder) : flagsBuilder :=
  let f := if f.IncludeDirPaths = [] then
    { f with IncludeDirPaths := defaultIncludeDirPaths } else f
  if f.ErrorFormat = [] then { f with ErrorFormat := defaultErrorFormat } else f

/-- Go `(*flagsBuilder).Build`: expand, check unsupported legacy flags, run
the plugin cross-check, fill in defaults, and require at least one input
file. -/
def Build (fs : fileSys) (fuel : Nat) (f : flagsBuilder) (args : List Str) :
    Except buildError env :=
  match buildRec fs fuel f args [] [] with
  | .error e => .error e
  | .ok (filePaths, f, tbl, _) =>
    match checkUnsupported f with
    | .error e => .error e
    | .ok _ =>
      match crossCheckPlugins tbl with
      | .error e => .error e
      | .ok _ =>
        if filePaths = [] then .error .noInputFiles
        else .ok (env.mk (applyDefaults f).toflags tbl filePaths)

/-! ## Specification-side expansion

`expandSpecArgs` restates, for the refinement claim about input-path order,
the spec's description of the Argument Expander: the resolved input-path
list is the positional tokens in depth-first left-to-right encounter order,
with each `@file` token replaced in place by the paths contributed by
expanding the file's parsed contents; only the visited set is threaded, no
option or plugin state. -/

def expandSpecArgs (fs : fileSys) :
    Nat → List Str → List Str → Option (List Str × List Str)
  | 0, _, _ => none
  | fuel + 1, seen, args =>
    match args with
    | [] => some ([], seen)
    | arg :: rest =>
      if arg = [] then none
      else if ¬ arg.headD ' ' = '@' then
        match expandSpecArgs fs fuel seen rest with
        | none => none
        | some (paths, seen') => some (arg :: paths, seen')
      else
        let flagFilePath := arg.drop 1
        if flagFilePath ∈ seen then none
        else
          match lookupA fs flagFilePath with
          | none => none
          | some data =>
            match parseArgs newFlagsBuilder (fileLines data) with
            | .error _ => none
            | .ok (_, subArgs) =>
              match expandSpecArgs fs fuel (flagFilePath :: seen) subArgs with
              | none => none
              | some (subPaths, seen') =>
                match expandSpecArgs fs fuel seen' rest with
                | none => none
                | some (paths, seen'') => some (subPaths ++ paths, seen'')

deriving instance DecidableEq for Except

/-! ## Statement-level vocabulary

These definitions only package the functions above for the statements of the
claims: concrete flag tokens, the side conditions a dynamically named plugin
flag must satisfy to be parsed as one, the parse-then-resolve pipeline for
plugin directives, and the cyclic argument-file family. -/

/-- A `--<name>_out=<value>` token. -/
def outTok (name value : Str) : Str := str "--" ++ name ++ str "_out=" ++ value

/-- A `--<name>_opt=<value>` token. -/
def optTok (name value : Str) : Str := str "--" ++ name ++ str "_opt=" ++ value

/-- Side conditions for a plugin name to pass through the flag syntax: it is
non-empty, does not begin with `-` or `=`, contains no `=`, and is not the
reserved `descriptor_set` (whose `_out` flag is the descriptor-set output
flag, excluded from directive capture). -/
abbrev GoodName (name : Str) : Prop :=
  ¬ name = [] ∧ ¬ name.headD ' ' = '-' ∧ ¬ name.headD ' ' = '=' ∧
    '=' ∉ name ∧ ¬ name = str "descriptor_set"

/-- Parse a token list with a fresh builder (one expansion's flag parse) and
resolve its captured plugin directives into `tbl`. -/
def resolveDirectives (tbl : pluginMap) (tokens : List Str) : Except buildError pluginMap :=
  match parseArgs newFlagsBuilder tokens with
  | .error e => .error (.flagParse e)
  | .ok (f, _) => parsePluginNameToPluginInfo f tbl

/-- The cyclically referencing argument-file family: each path in `ps` is a
file whose contents reference the next path, and the last references
`first`. -/
def chainFS : List Str → Str → fileSys
  | [], _ => []
  | p :: rest, first => (p, '@' :: (rest.headD first)) :: chainFS rest first

/-- `links fs qs t`: in `fs`, each path of `qs` is a file referencing the
next one, the last referencing `t`. -/
def links (fs : fileSys) : List Str → Str → Prop
  | [], _ => True
  | q :: rest, t => lookupA fs q = some ('@' :: (rest.headD t)) ∧ links fs rest t

/-! ## Properties of the defaulting step -/

theorem applyDefaults_IncludeDirPaths (f : flagsBuilder) :
    (applyDefaults f).IncludeDirPaths =
      (if f.IncludeDirPaths = [] then defaultIncludeDirPaths else f.IncludeDirPaths) := by
  by_cases h1 : f.IncludeDirPaths = [] <;>
    simp only [applyDefaults, h1, if_true, if_false, ite_true, ite_false] <;>
    split <;> simp [h1]

theorem applyDefaults_ErrorFormat (f : flagsBuilder) :
    (applyDefaults f).ErrorFormat =
      (if f.ErrorFormat = [] then defaultErrorFormat else f.ErrorFormat) := by
  by_cases h1 : f.IncludeDirPaths = [] <;>
    by_cases h2 : f.ErrorFormat = [] <;>
    simp [applyDefaults, h1, h2]

/-! ## Lemmas about the final cross-check -/

theorem crossCheck_ok_clean (tbl : pluginMap) (h : crossCheckPlugins tbl = .ok ()) :
    ∀ p ∈ tbl, p.2.Out = [] → p.2.Opt = [] ∧ p.2.Path = [] := by
  induction tbl with
  | nil => intro p hp; cases hp
  | cons q rest ih =>
    intro p hp hout
    unfold crossCheckPlugins at h
    split at h
    · cases h
    · split at h
      · cases h
      · rcases List.mem_cons.mp hp with hp | hp
        · subst hp
          rename_i h1 h2
          constructor
          · by_contra hopt
            exact h1 ⟨hout, hopt⟩
          · by_contra hpath
            exact h2 ⟨hout, hpath⟩
        · exact ih h p hp hout

/-- Destructuring of a successful `Build`. -/
theorem Build_ok_elim (fs : fileSys) (fuel : Nat) (f : flagsBuilder) (args : List Str) (e : env)
    (h : Build fs fuel f args = .ok e) :
    ∃ paths f' tbl seen,
      buildRec fs fuel f args [] [] = .ok (paths, f', tbl, seen) ∧
      checkUnsupported f' = .ok () ∧
      crossCheckPlugins tbl = .ok () ∧
      ¬ paths = [] ∧
      e = env.mk (applyDefaults f').toflags tbl paths := by
  unfold Build at h
  split at h
  · cases h
  · rename_i paths f' tbl seen heq
    split at h
    · cases h
    · rename_i u1 hcu
      split at h
      · cases h
      · rename_i u2 hcc
        split at h
        · cases h
        · rename_i hpaths
          cases h
          cases u1
          cases u2
          exact ⟨paths, f', tbl, seen, heq, hcu, hcc, hpaths, rfl⟩

/-- C8: after full resolution, a plugin entry with an options string but no
output location fails with `OptWithoutOutError`, one with an explicit path
(and no options) but no output location fails with `PathWithoutOutError`
(the cross-check loop reports the first offending table entry), and a
successful environment therefore contains no plugin entry with options or a
path but an empty output location. -/
theorem claim_C8 :
    (∀ (pre post : pluginMap) (n : Str) (i : pluginInfo),
      (∀ p ∈ pre, ¬ (p.2.Out = [] ∧ (¬ p.2.Opt = [] ∨ ¬ p.2.Path = []))) →
      i.Out = [] → ¬ i.Opt = [] →
      crossCheckPlugins (pre ++ (n, i) :: post) = .error (.cannotSpecifyOptWithoutOut n)) ∧
    (∀ (pre post : pluginMap) (n : Str) (i : pluginInfo),
      (∀ p ∈ pre, ¬ (p.2.Out = [] ∧ (¬ p.2.Opt = [] ∨ ¬ p.2.Path = []))) →
      i.Out = [] → i.Opt = [] → ¬ i.Path = [] →
      crossCheckPlugins (pre ++ (n, i) :: post) = .error (.cannotSpecifyPathWithoutOut n)) ∧
    (∀ (fs : fileSys) (fuel : Nat) (f : flagsBuilder) (args : List Str) (e : env),
      Build fs fuel f args = .ok e →
      ∀ p ∈ e.PluginNameToPluginInfo, p.2.Out = [] → p.2.Opt = [] ∧ p.2.Path = []) := by
  refine ⟨?_, ?_, ?_⟩
  · intro pre post n i hclean hout hopt
    induction pre with
    | nil =>
      unfold crossCheckPlugins
      simp only [List.nil_append]
      rw [if_pos ⟨hout, hopt⟩]
    | cons q rest ih =>
      unfold crossCheckPlugins
      simp only [List.cons_append]
      have hq := hclean q (List.mem_cons_self q rest)
      rw [if_neg (fun hc => hq ⟨hc.1, Or.inl hc.2⟩), if_neg (fun hc => hq ⟨hc.1, Or.inr hc.2⟩)]
      exact ih (fun p hp => hclean p (List.mem_cons_of_mem q hp))
  · intro pre post n i hclean hout hopt hpath
    induction pre with
    | nil =>
      unfold crossCheckPlugins
      simp only [List.nil_append]
      rw [if_neg (fun hc => hc.2 hopt), if_pos ⟨hout, hpath⟩]
    | cons q rest ih =>
      unfold crossCheckPlugins
      simp only [List.cons_append]
      have hq := hclean q (List.mem_cons_self q rest)
      rw [if_neg (fun hc => hq ⟨hc.1, Or.inl hc.2⟩), if_neg (fun hc => hq ⟨hc.1, Or.inr hc.2⟩)]
      exact ih (fun p hp => hclean p (List.mem_cons_of_mem q hp))
  · intro fs fuel f args e h
    obtain ⟨paths, f', tbl, seen, _, _, hcc, _, he⟩ := Build_ok_elim fs fuel f args e h
    subst he
    exact crossCheck_ok_clean tbl hcc

theorem claim_C8_witness :
    crossCheckPlugins [(str "foo", { Out := [], Opt := str "x", Path := [] })] =
      .error (.cannotSpecifyOptWithoutOut (str "foo")) ∧
    crossCheckPlugins [(str "bar", { Out := [], Opt := [], Path := str "p" })] =
      .error (.cannotSpecifyPathWithoutOut (str "bar")) ∧
    (∀ p ∈ (env.mk
        { IncludeDirPaths := [str "."], IncludeImports := false, IncludeSourceInfo := false,
          PrintFreeFieldNumbers := false, Output := [], ErrorFormat := str "gcc" }
        [] [str "a.proto"]).PluginNameToPluginInfo,
      p.2.Out = [] → p.2.Opt = [] ∧ p.2.Path = []) := by
  refine ⟨?_, ?_, ?_⟩
  · exact claim_C8.1 [] [] (str "foo") { Out := [], Opt := str "x", Path := [] }
      (by simp) (by decide) (by decide)
  · exact claim_C8.2.1 [] [] (str "bar") { Out := [], Opt := [], Path := str "p" }
      (by simp) (by decide) (by decide) (by decide)
  · exact claim_C8.2.2 [] 5 newFlagsBuilder [str "a.proto"] _ (by decide)

/-- C10: a successful environment has a non-empty include-directory list and
a non-empty error-format string; when the expansion chain supplied none,
they come from `defaultIncludeDirPaths` (`["."]`) and `defaultErrorFormat`
(`"gcc"`), otherwise they are the chain's values. -/
theorem claim_C10 (fs : fileSys) (fuel : Nat) (f : flagsBuilder) (args : List Str)
    (paths : List Str) (f' : flagsBuilder) (tbl : pluginMap) (seen : List Str) (e : env)
    (hrec : buildRec fs fuel f args [] [] = .ok (paths, f', tbl, seen))
    (hok : Build fs fuel f args = .ok e) :
    (¬ e.IncludeDirPaths = [] ∧ ¬ e.ErrorFormat = []) ∧
    (f'.IncludeDirPaths = [] → e.IncludeDirPaths = defaultIncludeDirPaths) ∧
    (¬ f'.IncludeDirPaths = [] → e.IncludeDirPaths = f'.IncludeDirPaths) ∧
    (f'.ErrorFormat = [] → e.ErrorFormat = defaultErrorFormat) ∧
    (¬ f'.ErrorFormat = [] → e.ErrorFormat = f'.ErrorFormat) := by
  obtain ⟨paths0, f0, tbl0, seen0, heq, _, _, _, he⟩ := Build_ok_elim fs fuel f args e hok
  rw [hrec] at heq
  injection heq with heq
  simp only [Prod.mk.injEq] at heq
  obtain ⟨rfl, rfl, rfl, rfl⟩ := heq
  subst he
  have hdir : (env.mk (applyDefaults f').toflags tbl paths).IncludeDirPaths =
      (applyDefaults f').IncludeDirPaths := rfl
  have hef : (env.mk (applyDefaults f').toflags tbl paths).ErrorFormat =
      (applyDefaults f').ErrorFormat := rfl
  rw [hdir, hef, applyDefaults_IncludeDirPaths, applyDefaults_ErrorFormat]
  by_cases h1 : f'.IncludeDirPaths = [] <;> by_cases h2 : f'.ErrorFormat = [] <;>
    simp [h1, h2] <;> decide

theorem claim_C10_witness :
    (¬ (env.mk
        { IncludeDirPaths := [str "."], IncludeImports := false, IncludeSourceInfo := false,
          PrintFreeFieldNumbers := false, Output := [], ErrorFormat := str "gcc" }
        [] [str "a.proto"]).IncludeDirPaths = [] ∧
     ¬ (env.mk
        { IncludeDirPaths := [str "."], IncludeImports := false, IncludeSourceInfo := false,
          PrintFreeFieldNumbers := false, Output := [], ErrorFormat := str "gcc" }
        [] [str "a.proto"]).ErrorFormat = []) ∧
    (newFlagsBuilder.IncludeDirPaths = [] →
      (env.mk
        { IncludeDirPaths := [str "."], IncludeImports := false, IncludeSourceInfo := false,
          PrintFreeFieldNumbers := false, Output := [], ErrorFormat := str "gcc" }
        [] [str "a.proto"]).IncludeDirPaths = defaultIncludeDirPaths) ∧
    (¬ newFlagsBuilder.IncludeDirPaths = [] →
      (env.mk
        { IncludeDirPaths := [str "."], IncludeImports := false, IncludeSourceInfo := false,
          PrintFreeFieldNumbers := false, Output := [], ErrorFormat := str "gcc" }
        [] [str "a.proto"]).IncludeDirPaths = newFlagsBuilder.IncludeDirPaths) ∧
    (newFlagsBuilder.ErrorFormat = [] →
      (env.mk
        { IncludeDirPaths := [str "."], IncludeImports := false, IncludeSourceInfo := false,
          PrintFreeFieldNumbers := false, Output := [], ErrorFormat := str "gcc" }
        [] [str "a.proto"]).ErrorFormat = defaultErrorFormat) ∧
    (¬ newFlagsBuilder.ErrorFormat = [] →
      (env.mk
        { IncludeDirPaths := [str "."], IncludeImports := false, IncludeSourceInfo := false,
          PrintFreeFieldNumbers := false, Output := [], ErrorFormat := str "gcc" }
        [] [str "a.proto"]).ErrorFormat = newFlagsBuilder.ErrorFormat) :=
  claim_C10 [] 5 newFlagsBuilder [str "a.proto"]
    [str "a.proto"] newFlagsBuilder [] [] _ (by decide) (by decide)

/-- C6: `merge` appends the child's include-directory paths after the
parent's, takes the logical OR of each boolean toggle (a set toggle is never
reset), and lets the child's output-location and error-format strings
override the parent's exactly when they are non-empty. -/
theorem claim_C6 (f subFlagsBuilder : flagsBuilder) :
    (merge f subFlagsBuilder).IncludeDirPaths =
      f.IncludeDirPaths ++ subFlagsBuilder.IncludeDirPaths ∧
    (merge f subFlagsBuilder).IncludeImports =
      (f.IncludeImports || subFlagsBuilder.IncludeImports) ∧
    (merge f subFlagsBuilder).IncludeSourceInfo =
      (f.IncludeSourceInfo || subFlagsBuilder.IncludeSourceInfo) ∧
    (merge f subFlagsBuilder).PrintFreeFieldNumbers =
      (f.PrintFreeFieldNumbers || subFlagsBuilder.PrintFreeFieldNumbers) ∧
    (merge f subFlagsBuilder).DecodeRaw = (f.DecodeRaw || subFlagsBuilder.DecodeRaw) ∧
    (merge f subFlagsBuilder).Output =
      (if subFlagsBuilder.Output = [] then f.Output else subFlagsBuilder.Output) ∧
    (merge f subFlagsBuilder).ErrorFormat =
      (if subFlagsBuilder.ErrorFormat = [] then f.ErrorFormat else subFlagsBuilder.ErrorFormat) := by
  have hb : ∀ a b : Bool, (if b then true else a) = (a || b) := by decide
  refine ⟨rfl, ?_, ?_, ?_, ?_, ?_, ?_⟩
  · simp only [merge]; rw [hb]
  · simp only [merge]; rw [hb]
  · simp only [merge]; rw [hb]
  · simp only [merge]; rw [hb]
  · by_cases h : subFlagsBuilder.Output = [] <;> simp [merge, h]
  · by_cases h : subFlagsBuilder.ErrorFormat = [] <;> simp [merge, h]


/-! ## Lemmas about the string helpers -/

theorem hasPre_iff (s pre : Str) : hasPre s pre = true ↔ pre <+: s := by
  induction pre generalizing s with
  | nil => simp [hasPre]
  | cons y ys ih =>
    cases s with
    | nil => simp [hasPre]
    | cons x xs =>
      simp only [hasPre, Bool.and_eq_true, decide_eq_true_eq, ih, List.cons_prefix_cons]
      constructor
      · rintro ⟨rfl, h2⟩
        exact ⟨rfl, h2⟩
      · rintro ⟨rfl, h2⟩
        exact ⟨rfl, h2⟩

theorem hasPre_append (pre rest : Str) : hasPre (pre ++ rest) pre = true :=
  (hasPre_iff (pre ++ rest) pre).mpr (List.prefix_append pre rest)

theorem trimPre_append (pre rest : Str) : trimPre (pre ++ rest) pre = rest := by
  rw [trimPre, if_pos (hasPre_append pre rest), List.drop_left]

theorem hasSuf_append (a suf : Str) : hasSuf (a ++ suf) suf = true := by
  rw [hasSuf, List.reverse_append]
  exact hasPre_append suf.reverse a.reverse

theorem trimSuf_append (a suf : Str) : trimSuf (a ++ suf) suf = a := by
  rw [trimSuf, if_pos (hasSuf_append a suf), List.length_append]
  have h : a.length + suf.length - suf.length = a.length := by omega
  rw [h, List.take_left]

theorem hasPre_append_of_length (b c x : Str) (h : b.length = c.length) :
    hasPre (b ++ x) c = true ↔ b = c := by
  rw [hasPre_iff]
  constructor
  · intro hp
    have h1 : c = (b ++ x).take c.length := List.prefix_iff_eq_take.mp hp
    rw [← h, List.take_left] at h1
    exact h1.symm
  · rintro rfl
    exact List.prefix_append _ _

theorem hasSuf_append_of_length (a b c : Str) (h : b.length = c.length) :
    hasSuf (a ++ b) c = true ↔ b = c := by
  rw [hasSuf, List.reverse_append,
    hasPre_append_of_length b.reverse c.reverse a.reverse (by simp [h])]
  constructor
  · intro hr
    simpa using congrArg List.reverse hr
  · rintro rfl
    rfl

theorem cut2_not_mem (c : Char) (s : Str) (h : c ∉ s) : cut2 c s = [s] := by
  induction s with
  | nil => rfl
  | cons x xs ih =>
    rw [cut2, if_neg (by intro hx; exact h (hx ▸ List.mem_cons_self x xs)),
      ih (fun hm => h (List.mem_cons_of_mem x hm))]

theorem cut2_append (c : Char) (a b : Str) (h : c ∉ a) :
    cut2 c (a ++ c :: b) = [a, b] := by
  induction a with
  | nil => simp [cut2]
  | cons x xs ih =>
    rw [List.cons_append, cut2,
      if_neg (by intro hx; exact h (hx ▸ List.mem_cons_self x xs)),
      ih (fun hm => h (List.mem_cons_of_mem x hm))]

theorem splitOnChar_not_mem (c : Char) (s : Str) (h : c ∉ s) : splitOnChar c s = [s] := by
  induction s with
  | nil => rfl
  | cons x xs ih =>
    rw [splitOnChar, if_neg (by intro hx; exact h (hx ▸ List.mem_cons_self x xs)),
      ih (fun hm => h (List.mem_cons_of_mem x hm))]

theorem splitOnChar_ne_nil (c : Char) (s : Str) : ¬ splitOnChar c s = [] := by
  induction s with
  | nil => simp [splitOnChar]
  | cons x xs ih =>
    rw [splitOnChar]
    by_cases hx : x = c
    · simp [hx]
    · rw [if_neg hx]
      match hm : splitOnChar c xs with
      | [] => exact absurd hm ih
      | y :: ys => simp

theorem splitOnChar_append (c : Char) (a b : Str) (h : c ∉ a) :
    splitOnChar c (a ++ c :: b) = a :: splitOnChar c b := by
  induction a with
  | nil => simp [splitOnChar]
  | cons x xs ih =>
    have hx : ¬ x = c := by intro hx; exact h (hx ▸ List.mem_cons_self x xs)
    have ih2 := ih (fun hm => h (List.mem_cons_of_mem x hm))
    rw [List.cons_append, splitOnChar, if_neg hx, ih2]

theorem splitOnChar_length (c : Char) (s : Str) :
    (splitOnChar c s).length = s.count c + 1 := by
  induction s with
  | nil => simp [splitOnChar]
  | cons x xs ih =>
    rw [splitOnChar]
    by_cases hx : x = c
    · subst hx
      simp [List.count_cons_self, ih]
    · rw [if_neg hx]
      match hm : splitOnChar c xs with
      | [] => exact absurd hm (splitOnChar_ne_nil c xs)
      | y :: ys =>
        rw [hm] at ih
        simp only [List.length_cons] at ih ⊢
        rw [List.count_cons_of_ne (by simpa using Ne.symm hx)]
        omega

theorem dropWhile_eq_self_of_none {p : Char → Bool} (l : Str)
    (h : ∀ x ∈ l, p x = false) : l.dropWhile p = l := by
  cases l with
  | nil => rfl
  | cons x xs =>
    rw [List.dropWhile_cons, h x (List.mem_cons_self x xs)]
    simp

theorem takeWhile_eq_self_of_all {p : Char → Bool} (l : Str)
    (h : ∀ x ∈ l, p x = true) : l.takeWhile p = l := by
  induction l with
  | nil => rfl
  | cons x xs ih =>
    rw [List.takeWhile_cons, h x (List.mem_cons_self x xs)]
    simp only [if_true]
    rw [ih (fun y hy => h y (List.mem_cons_of_mem x hy))]

theorem trimSpace_of_no_space (s : Str) (h : ∀ x ∈ s, goIsSpace x = false) :
    trimSpace s = s := by
  rw [trimSpace, dropWhile_eq_self_of_none s h,
    dropWhile_eq_self_of_none s.reverse (fun x hx => h x (List.mem_reverse.mp hx)),
    List.reverse_reverse]

theorem filepathBase_of_no_slash (s : Str) (hne : ¬ s = []) (h : '/' ∉ s) :
    filepathBase s = s := by
  rw [filepathBase, if_neg hne]
  have h1 : s.reverse.dropWhile (fun c => c = '/') = s.reverse := by
    apply dropWhile_eq_self_of_none
    intro x hx
    simp only [decide_eq_false_iff_not]
    intro hc
    exact h (hc ▸ List.mem_reverse.mp hx)
  have h2 : s.reverse.takeWhile (fun c => ¬ c = '/') = s.reverse := by
    apply takeWhile_eq_self_of_all
    intro x hx
    simp only [decide_eq_true_eq]
    intro hc
    exact h (hc ▸ List.mem_reverse.mp hx)
  simp only [h1, List.reverse_reverse, h2]
  exact if_neg hne

theorem str_dso_split : str "descriptor_set_out" = str "descriptor_set" ++ str "_out" := by decide

theorem Normalize_out_eq (f : flagsBuilder) (name : Str) (h : GoodName name) :
    Normalize f (name ++ str "_out") =
      ({ f with pluginNameToValue := updateA f.pluginNameToValue name ({ (lookupA f.pluginNameToValue name).getD newPluginValue with OutIndex := (f.pluginFake.length : Int) }) }, str "protoc_plugin_fake") := by
  have hne : ¬ name ++ str "_out" = str "descriptor_set_out" := by
    intro hh
    rw [str_dso_split] at hh
    exact h.2.2.2.2 (List.append_cancel_right hh)
  rw [Normalize, if_pos ⟨hne, hasSuf_append name (str "_out")⟩]
  rw [pluginFakeParse, trimSuf_append]
  rfl

theorem Normalize_opt_eq (f : flagsBuilder) (name : Str) :
    Normalize f (name ++ str "_opt") =
      ({ f with pluginNameToValue := updateA f.pluginNameToValue name ({ (lookupA f.pluginNameToValue name).getD newPluginValue with OptIndex := (f.pluginFake.length : Int) }) }, str "protoc_plugin_fake") := by
  have hs : ¬ (¬ name ++ str "_opt" = str "descriptor_set_out" ∧
      hasSuf (name ++ str "_opt") (str "_out") = true) := by
    rintro ⟨-, hc⟩
    have := (hasSuf_append_of_length name (str "_opt") (str "_out") (by decide)).mp hc
    exact absurd this (by decide)
  rw [Normalize, if_neg hs, if_pos (hasSuf_append name (str "_opt"))]
  rw [pluginFakeParse, trimSuf_append]
  rfl

theorem setFlag_fake (f : flagsBuilder) (v : Str) :
    setFlag f (str "protoc_plugin_fake") v = .ok { f with pluginFake := f.pluginFake ++ [v] } := by
  rfl

theorem str_oute_split : str "_out=" = str "_out" ++ '=' :: [] := by decide

theorem str_opte_split : str "_opt=" = str "_opt" ++ '=' :: [] := by decide

theorem longFlagStep_outTok (f : flagsBuilder) (name v : Str) (rest : List Str)
    (h : GoodName name) :
    longFlagStep f (outTok name v) rest =
      .ok ({ f with
        pluginNameToValue := updateA f.pluginNameToValue name ({ (lookupA f.pluginNameToValue name).getD newPluginValue with OutIndex := (f.pluginFake.length : Int) }),
        pluginFake := f.pluginFake ++ [v] }, false) := by
  obtain ⟨hne, hd, he, hmem, hds⟩ := h
  obtain ⟨n0, ntl, rfl⟩ : ∃ c cs, name = c :: cs := by
    cases name with
    | nil => exact absurd rfl hne
    | cons c cs => exact ⟨c, cs, rfl⟩
  have hdrop : (outTok (n0 :: ntl) v).drop 2 = (n0 :: ntl) ++ str "_out=" ++ v := by
    rw [outTok, List.append_assoc, List.append_assoc]
    have h2 : (str "--").length = 2 := rfl
    rw [← h2, List.drop_left, List.append_assoc]
  have hcut : cut2 '=' ((n0 :: ntl) ++ str "_out=" ++ v) =
      [(n0 :: ntl) ++ str "_out", v] := by
    rw [str_oute_split]
    have : (n0 :: ntl) ++ (str "_out" ++ '=' :: []) ++ v =
        ((n0 :: ntl) ++ str "_out") ++ '=' :: v := by
      simp [List.append_assoc]
    rw [this]
    apply cut2_append
    intro hc
    rcases List.mem_append.mp hc with hc | hc
    · exact hmem hc
    · exact absurd hc (by decide)
  rw [longFlagStep]
  simp only [hdrop, hcut]
  rw [if_neg]
  · rw [Normalize_out_eq _ _ ⟨hne, hd, he, hmem, hds⟩]
    rfl
  · push_neg
    refine ⟨by simp, ?_, ?_⟩
    · simpa using fun hh => hd (by simpa using hh)
    · simpa using fun hh => he (by simpa using hh)

theorem longFlagStep_optTok (f : flagsBuilder) (name v : Str) (rest : List Str)
    (h : GoodName name) :
    longFlagStep f (optTok name v) rest =
      .ok ({ f with
        pluginNameToValue := updateA f.pluginNameToValue name ({ (lookupA f.pluginNameToValue name).getD newPluginValue with OptIndex := (f.pluginFake.length : Int) }),
        pluginFake := f.pluginFake ++ [v] }, false) := by
  obtain ⟨hne, hd, he, hmem, hds⟩ := h
  obtain ⟨n0, ntl, rfl⟩ : ∃ c cs, name = c :: cs := by
    cases name with
    | nil => exact absurd rfl hne
    | cons c cs => exact ⟨c, cs, rfl⟩
  have hdrop : (optTok (n0 :: ntl) v).drop 2 = (n0 :: ntl) ++ str "_opt=" ++ v := by
    rw [optTok, List.append_assoc, List.append_assoc]
    have h2 : (str "--").length = 2 := rfl
    rw [← h2, List.drop_left, List.append_assoc]
  have hcut : cut2 '=' ((n0 :: ntl) ++ str "_opt=" ++ v) =
      [(n0 :: ntl) ++ str "_opt", v] := by
    rw [str_opte_split]
    have : (n0 :: ntl) ++ (str "_opt" ++ '=' :: []) ++ v =
        ((n0 :: ntl) ++ str "_opt") ++ '=' :: v := by
      simp [List.append_assoc]
    rw [this]
    apply cut2_append
    intro hc
    rcases List.mem_append.mp hc with hc | hc
    · exact hmem hc
    · exact absurd hc (by decide)
  rw [longFlagStep]
  simp only [hdrop, hcut]
  rw [if_neg]
  · rw [Normalize_opt_eq]
    rfl
  · push_neg
    refine ⟨by simp, ?_, ?_⟩
    · simpa using fun hh => hd (by simpa using hh)
    · simpa using fun hh => he (by simpa using hh)

theorem outTok_cons (name v : Str) :
    outTok name v = '-' :: '-' :: (name ++ str "_out=" ++ v) := by
  simp [outTok, str, List.append_assoc]

theorem optTok_cons (name v : Str) :
    optTok name v = '-' :: '-' :: (name ++ str "_opt=" ++ v) := by
  simp [optTok, str, List.append_assoc]

theorem parseArgs_outTok (f : flagsBuilder) (name v : Str) (rest : List Str)
    (h : GoodName name) :
    parseArgs f (outTok name v :: rest) =
      parseArgs { f with
        pluginNameToValue := updateA f.pluginNameToValue name ({ (lookupA f.pluginNameToValue name).getD newPluginValue with OutIndex := (f.pluginFake.length : Int) }),
        pluginFake := f.pluginFake ++ [v] } rest := by
  have hlen : 8 ≤ (outTok name v).length := by
    obtain ⟨n0, ntl, hname⟩ : ∃ c cs, name = c :: cs := by
      cases name with
      | nil => exact absurd rfl h.1
      | cons c cs => exact ⟨c, cs, rfl⟩
    rw [outTok_cons, hname]
    simp [List.length_append, str]
    omega
  have c1 : ¬ ((outTok name v).length = 0 ∨ ¬ (outTok name v).headD ' ' = '-' ∨
      (outTok name v).length = 1) := by
    push_neg
    refine ⟨by omega, ?_, by omega⟩
    rw [outTok_cons]
    rfl
  have c2 : (outTok name v).getD 1 ' ' = '-' := by
    rw [outTok_cons]
    rfl
  have c3 : ¬ (outTok name v).length = 2 := by omega
  rw [parseArgs, if_neg c1, if_pos c2, if_neg c3, longFlagStep_outTok f name v rest h]

theorem parseArgs_optTok (f : flagsBuilder) (name v : Str) (rest : List Str)
    (h : GoodName name) :
    parseArgs f (optTok name v :: rest) =
      parseArgs { f with
        pluginNameToValue := updateA f.pluginNameToValue name ({ (lookupA f.pluginNameToValue name).getD newPluginValue with OptIndex := (f.pluginFake.length : Int) }),
        pluginFake := f.pluginFake ++ [v] } rest := by
  have hlen : 8 ≤ (optTok name v).length := by
    obtain ⟨n0, ntl, hname⟩ : ∃ c cs, name = c :: cs := by
      cases name with
      | nil => exact absurd rfl h.1
      | cons c cs => exact ⟨c, cs, rfl⟩
    rw [optTok_cons, hname]
    simp [List.length_append, str]
    omega
  have c1 : ¬ ((optTok name v).length = 0 ∨ ¬ (optTok name v).headD ' ' = '-' ∨
      (optTok name v).length = 1) := by
    push_neg
    refine ⟨by omega, ?_, by omega⟩
    rw [optTok_cons]
    rfl
  have c2 : (optTok name v).getD 1 ' ' = '-' := by
    rw [optTok_cons]
    rfl
  have c3 : ¬ (optTok name v).length = 2 := by omega
  rw [parseArgs, if_neg c1, if_pos c2, if_neg c3, longFlagStep_optTok f name v rest h]

theorem resolveDirectives_outTok_single (tbl : pluginMap) (name v : Str) (h : GoodName name) :
    resolveDirectives tbl [outTok name v] = processOut [v] tbl name { OutIndex := 0, OptIndex := -1 } := by
  rw [resolveDirectives, parseArgs_outTok newFlagsBuilder name v [] h, parseArgs]
  simp only [newFlagsBuilder, lookupA, updateA, newPluginValue, Option.getD_none,
    List.length_nil, Nat.cast_zero, List.nil_append]
  rw [parsePluginNameToPluginInfo]
  rw [processDirectives]
  cases hout : processOut [v] tbl name { OutIndex := 0, OptIndex := -1 } with
  | error e => rfl
  | ok tbl2 =>
    simp [processOpt, processDirectives, processPluginPathValues,
      show ¬ (0:Int) ≤ -1 by norm_num]

theorem resolveOut_one_colon (name a b : Str) (h : GoodName name)
    (ha : ':' ∉ a) (hb : ':' ∉ b) :
    resolveDirectives [] [outTok name (a ++ ':' :: b)] =
      .ok [(name, { Out := b, Opt := a, Path := [] })] := by
  rw [resolveDirectives_outTok_single [] name (a ++ ':' :: b) h]
  have hsplit : splitOnChar ':' (a ++ ':' :: b) = [a, b] := by
    rw [splitOnChar_append ':' a b ha, splitOnChar_not_mem ':' b hb]
  by_cases hae : a = []
  · subst hae
    rw [List.nil_append] at hsplit
    simp [processOut, processOut.processOutSplit, hsplit, lookupA, updateA, newPluginInfo]
  · simp [processOut, processOut.processOutSplit, hsplit, lookupA, updateA, newPluginInfo, hae]

/-- C7: an out directive value with more than one colon is rejected with
`AmbiguousOutSyntaxError` naming the plugin and raw value; zero colons make
the whole value the output location; exactly one colon splits it into the
options string (before) and the output location (after). -/
theorem claim_C7 (name v : Str) (h : GoodName name) :
    (v.count ':' = 0 →
      resolveDirectives [] [outTok name v] = .ok [(name, { Out := v, Opt := [], Path := [] })]) ∧
    (∀ a b : Str, v = a ++ ':' :: b → ':' ∉ a → ':' ∉ b →
      resolveDirectives [] [outTok name v] = .ok [(name, { Out := b, Opt := a, Path := [] })]) ∧
    (2 ≤ v.count ':' →
      resolveDirectives [] [outTok name v] = .error (.outMultipleColons name v)) := by
  rw [resolveDirectives_outTok_single [] name v h]
  refine ⟨?_, ?_, ?_⟩
  · intro hzero
    have hsplit : splitOnChar ':' v = [v] :=
      splitOnChar_not_mem ':' v (List.count_eq_zero.mp hzero)
    simp [processOut, processOut.processOutSplit, hsplit, lookupA, updateA, newPluginInfo]
  · intro a b hv ha hb
    subst hv
    rw [← resolveDirectives_outTok_single [] name (a ++ ':' :: b) h]
    exact resolveOut_one_colon name a b h ha hb
  · intro htwo
    have hlen : 3 ≤ (splitOnChar ':' v).length := by
      rw [splitOnChar_length]
      omega
    obtain ⟨x, y, z, t, hsplit⟩ :
        ∃ x y z t, splitOnChar ':' v = x :: y :: z :: t := by
      match hs : splitOnChar ':' v with
      | [] => rw [hs] at hlen; simp at hlen
      | [_] => rw [hs] at hlen; simp at hlen
      | [_, _] => rw [hs] at hlen; simp at hlen
      | x :: y :: z :: t => exact ⟨x, y, z, t, rfl⟩
    simp [processOut, hsplit]

theorem claim_C7_witness :
    resolveDirectives [] [outTok (str "foo") (str "myopt:out/dir")] =
      .ok [(str "foo", { Out := str "out/dir", Opt := str "myopt", Path := [] })] ∧
    resolveDirectives [] [outTok (str "foo") (str "a:b:c")] =
      .error (.outMultipleColons (str "foo") (str "a:b:c")) := by
  constructor
  · exact (claim_C7 (str "foo") (str "myopt:out/dir") (by decide)).2.1
      (str "myopt") (str "out/dir") (by decide) (by decide) (by decide)
  · exact (claim_C7 (str "foo") (str "a:b:c") (by decide)).2.2 (by decide)

theorem parseArgs_optTok_outTok (name opt dir : Str) (h : GoodName name) :
    parseArgs newFlagsBuilder [optTok name opt, outTok name dir] =
      .ok ({ newFlagsBuilder with
        pluginNameToValue := [(name, { OutIndex := 1, OptIndex := 0 })],
        pluginFake := [opt, dir] }, []) := by
  rw [parseArgs_optTok newFlagsBuilder name opt [outTok name dir] h]
  rw [parseArgs_outTok _ name dir [] h]
  rw [parseArgs]
  simp [newFlagsBuilder, lookupA, updateA, newPluginValue]

theorem parseArgs_outTok_optTok (name comb x : Str) (h : GoodName name) :
    parseArgs newFlagsBuilder [outTok name comb, optTok name x] =
      .ok ({ newFlagsBuilder with
        pluginNameToValue := [(name, { OutIndex := 0, OptIndex := 1 })],
        pluginFake := [comb, x] }, []) := by
  rw [parseArgs_outTok newFlagsBuilder name comb [optTok name x] h]
  rw [parseArgs_optTok _ name x [] h]
  rw [parseArgs]
  simp [newFlagsBuilder, lookupA, updateA, newPluginValue]

theorem parseArgs_outTok_outTok (name a b : Str) (h : GoodName name) :
    parseArgs newFlagsBuilder [outTok name a, outTok name b] =
      .ok ({ newFlagsBuilder with
        pluginNameToValue := [(name, { OutIndex := 1, OptIndex := -1 })],
        pluginFake := [a, b] }, []) := by
  rw [parseArgs_outTok newFlagsBuilder name a [outTok name b] h]
  rw [parseArgs_outTok _ name b [] h]
  rw [parseArgs]
  simp [newFlagsBuilder, lookupA, updateA, newPluginValue]

/-- C2 (amended): for colon-free `opt` and `dir`, the combined
`--name_out=opt:dir` resolves to the same per-plugin invocation info as the
pair `--name_opt=opt`, `--name_out=dir`; and when `opt` is non-empty, giving
the combined form together with a separate `--name_opt` fails with
`DuplicateOptionsError`. -/
theorem claim_C2 (name opt dir : Str) (h : GoodName name)
    (hopt : ':' ∉ opt) (hdir : ':' ∉ dir) :
    resolveDirectives [] [outTok name (opt ++ ':' :: dir)] =
      .ok [(name, { Out := dir, Opt := opt, Path := [] })] ∧
    resolveDirectives [] [optTok name opt, outTok name dir] =
      .ok [(name, { Out := dir, Opt := opt, Path := [] })] ∧
    (¬ opt = [] → ∀ x : Str,
      resolveDirectives [] [outTok name (opt ++ ':' :: dir), optTok name x] =
        .error (.duplicateOpt name)) := by
  refine ⟨?_, ?_, ?_⟩
  · exact resolveOut_one_colon name opt dir h hopt hdir
  · rw [resolveDirectives, parseArgs_optTok_outTok name opt dir h]
    have hsplit : splitOnChar ':' dir = [dir] := splitOnChar_not_mem ':' dir hdir
    by_cases hoe : opt = []
    · subst hoe
      simp [parsePluginNameToPluginInfo, processDirectives, processOut,
        processOut.processOutSplit, processOpt, processPluginPathValues,
        lookupA, updateA, newPluginInfo, hsplit]
    · simp [parsePluginNameToPluginInfo, processDirectives, processOut,
        processOut.processOutSplit, processOpt, processPluginPathValues,
        lookupA, updateA, newPluginInfo, hsplit, hoe]
  · intro hoe x
    rw [resolveDirectives, parseArgs_outTok_optTok name (opt ++ ':' :: dir) x h]
    have hsplit : splitOnChar ':' (opt ++ ':' :: dir) = [opt, dir] := by
      rw [splitOnChar_append ':' opt dir hopt, splitOnChar_not_mem ':' dir hdir]
    simp [parsePluginNameToPluginInfo, processDirectives, processOut,
      processOut.processOutSplit, processOpt, processPluginPathValues,
      lookupA, updateA, newPluginInfo, hsplit, hoe]

theorem claim_C2_witness :
    resolveDirectives [] [outTok (str "foo") (str "myopt" ++ ':' :: str "out/dir")] =
      .ok [(str "foo", { Out := str "out/dir", Opt := str "myopt", Path := [] })] ∧
    resolveDirectives [] [optTok (str "foo") (str "myopt"), outTok (str "foo") (str "out/dir")] =
      .ok [(str "foo", { Out := str "out/dir", Opt := str "myopt", Path := [] })] ∧
    resolveDirectives [] [outTok (str "foo") (str "myopt" ++ ':' :: str "out/dir"),
        optTok (str "foo") (str "x")] =
      .error (.duplicateOpt (str "foo")) := by
  obtain ⟨h1, h2, h3⟩ :=
    claim_C2 (str "foo") (str "myopt") (str "out/dir") (by decide) (by decide) (by decide)
  exact ⟨h1, h2, h3 (by decide) (str "x")⟩

/-- C2 counterexample to the claim as stated: with the empty options string
(`--foo_out=:d` is the combined form with `opt = ""`, which contains no
colon), adding a separate `--foo_opt=x` does not fail: the combined form
contributed no options value, so the separate one is accepted. -/
theorem claim_C2_counterexample :
    resolveDirectives [] [outTok (str "foo") (str ":d"), optTok (str "foo") (str "x")] =
      .ok [(str "foo", { Out := str "d", Opt := str "x", Path := [] })] := by
  decide

/-- C5 (amended): within a single flag parse, a repeated `_out` for the same
plugin silently overwrites the recorded index (the single per-name
`OutIndex` slot keeps only the last occurrence, and resolution uses the last
raw value without error); a second `_out` occurrence arriving from a
separate expansion — a second flag parse resolving into the shared table
that already holds an out location for the plugin — is rejected with
`DuplicateOutError`. -/
theorem claim_C5 (name a b : Str) (h : GoodName name) (ha : ':' ∉ a) (hb : ':' ∉ b) :
    parseArgs newFlagsBuilder [outTok name a, outTok name b] =
      .ok ({ newFlagsBuilder with
        pluginNameToValue := [(name, { OutIndex := 1, OptIndex := -1 })],
        pluginFake := [a, b] }, []) ∧
    resolveDirectives [] [outTok name a, outTok name b] =
      .ok [(name, { Out := b, Opt := [], Path := [] })] ∧
    (¬ a = [] →
      resolveDirectives [] [outTok name a] = .ok [(name, { Out := a, Opt := [], Path := [] })] ∧
      resolveDirectives [(name, { Out := a, Opt := [], Path := [] })] [outTok name b] =
        .error (.duplicateOut name)) := by
  refine ⟨parseArgs_outTok_outTok name a b h, ?_, ?_⟩
  · rw [resolveDirectives, parseArgs_outTok_outTok name a b h]
    have hsplit : splitOnChar ':' b = [b] := splitOnChar_not_mem ':' b hb
    simp [parsePluginNameToPluginInfo, processDirectives, processOut,
      processOut.processOutSplit, processOpt, processPluginPathValues,
      lookupA, updateA, newPluginInfo, hsplit, show ¬ (0:Int) ≤ -1 by norm_num]
  · intro hae
    constructor
    · rw [resolveDirectives_outTok_single [] name a h]
      have hsplit : splitOnChar ':' a = [a] := splitOnChar_not_mem ':' a ha
      simp [processOut, processOut.processOutSplit, lookupA, updateA, newPluginInfo, hsplit]
    · rw [resolveDirectives_outTok_single [(name, { Out := a, Opt := [], Path := [] })] name b h]
      have hsplit : splitOnChar ':' b = [b] := splitOnChar_not_mem ':' b hb
      simp [processOut, processOut.processOutSplit, lookupA, updateA, newPluginInfo, hsplit, hae]

theorem claim_C5_witness :
    parseArgs newFlagsBuilder [outTok (str "foo") (str "a"), outTok (str "foo") (str "b")] =
      .ok ({ newFlagsBuilder with
        pluginNameToValue := [(str "foo", { OutIndex := 1, OptIndex := -1 })],
        pluginFake := [str "a", str "b"] }, []) ∧
    resolveDirectives [] [outTok (str "foo") (str "a"), outTok (str "foo") (str "b")] =
      .ok [(str "foo", { Out := str "b", Opt := [], Path := [] })] ∧
    resolveDirectives [] [outTok (str "foo") (str "a")] =
      .ok [(str "foo", { Out := str "a", Opt := [], Path := [] })] ∧
    resolveDirectives [(str "foo", { Out := str "a", Opt := [], Path := [] })]
        [outTok (str "foo") (str "b")] = .error (.duplicateOut (str "foo")) := by
  obtain ⟨h1, h2, h3⟩ := claim_C5 (str "foo") (str "a") (str "b") (by decide) (by decide) (by decide)
  obtain ⟨h4, h5⟩ := h3 (by decide)
  exact ⟨h1, h2, h4, h5⟩

/-- C5 counterexample to the claim as stated: two `--foo_out` occurrences in
one flag parse are not a validation error; the first recorded index is
silently overwritten and resolution succeeds with the second value. -/
theorem claim_C5_counterexample :
    resolveDirectives [] [outTok (str "foo") (str "a"), outTok (str "foo") (str "b")] =
      .ok [(str "foo", { Out := str "b", Opt := [], Path := [] })] := by
  decide

theorem eqc_not_mem_pg (key : Str) (hk : '=' ∉ key) : '=' ∉ str "protoc-gen-" ++ key := by
  intro hc
  rcases List.mem_append.mp hc with hc | hc
  · exact absurd hc (by decide)
  · exact hk hc

/-- C1 (amended): the bare plugin-path value `protoc-gen-<key>` and the
named value `protoc-gen-<key>=<path>` both resolve to the plugin key
`<key>` (the reserved `protoc-gen-` prefix is required and stripped), and
supplying an explicit path twice for the same resolved key fails with
`DuplicatePluginPathError`. -/
theorem claim_C1 (key path : Str) (hk2 : '=' ∉ key) (hk3 : '/' ∉ key) :
    parsePluginNameToPluginInfo
        { newFlagsBuilder with PluginPathValues := [str "protoc-gen-" ++ key] } [] =
      .ok [(key, { Out := [], Opt := [], Path := str "protoc-gen-" ++ key })] ∧
    parsePluginNameToPluginInfo
        { newFlagsBuilder with
          PluginPathValues := [(str "protoc-gen-" ++ key) ++ '=' :: path] } [] =
      .ok [(key, { Out := [], Opt := [], Path := path })] ∧
    parsePluginNameToPluginInfo
        { newFlagsBuilder with
          PluginPathValues := [str "protoc-gen-" ++ key,
            (str "protoc-gen-" ++ key) ++ '=' :: path] } [] =
      .error (.duplicatePluginPath key) := by
  have hbare : cut2 '=' (str "protoc-gen-" ++ key) = [str "protoc-gen-" ++ key] :=
    cut2_not_mem '=' _ (eqc_not_mem_pg key hk2)
  have hnamed : cut2 '=' (str "protoc-gen-" ++ (key ++ '=' :: path)) =
      [str "protoc-gen-" ++ key, path] := by
    rw [← List.append_assoc]
    exact cut2_append '=' _ path (eqc_not_mem_pg key hk2)
  have hbase : filepathBase (str "protoc-gen-" ++ key) = str "protoc-gen-" ++ key := by
    apply filepathBase_of_no_slash
    · simp [str]
    · intro hc
      rcases List.mem_append.mp hc with hc | hc
      · exact absurd hc (by decide)
      · exact hk3 hc
  have hpre : hasPre (str "protoc-gen-" ++ key) (str "protoc-gen-") = true :=
    hasPre_append _ _
  have htrim : trimPre (str "protoc-gen-" ++ key) (str "protoc-gen-") = key :=
    trimPre_append _ _
  have hne : ¬ str "protoc-gen-" ++ key = [] := by simp [str]
  refine ⟨?_, ?_, ?_⟩
  · have h0 : parsePluginNameToPluginInfo
        { newFlagsBuilder with PluginPathValues := [str "protoc-gen-" ++ key] } [] =
        processPluginPathValues [str "protoc-gen-" ++ key] [] := rfl
    rw [h0]
    simp [processPluginPathValues, processPluginPathValue,
      processPluginPathValue.processNamed, hbare, hbase, hpre, htrim, lookupA, updateA,
      newPluginInfo]
  · have h0 : parsePluginNameToPluginInfo
        { newFlagsBuilder with
          PluginPathValues := [(str "protoc-gen-" ++ key) ++ '=' :: path] } [] =
        processPluginPathValues [(str "protoc-gen-" ++ key) ++ '=' :: path] [] := rfl
    rw [h0]
    simp [processPluginPathValues, processPluginPathValue,
      processPluginPathValue.processNamed, hnamed, hpre, htrim, lookupA, updateA,
      newPluginInfo]
  · have h0 : parsePluginNameToPluginInfo
        { newFlagsBuilder with
          PluginPathValues := [str "protoc-gen-" ++ key,
            (str "protoc-gen-" ++ key) ++ '=' :: path] } [] =
        processPluginPathValues [str "protoc-gen-" ++ key,
          (str "protoc-gen-" ++ key) ++ '=' :: path] [] := rfl
    rw [h0]
    simp [processPluginPathValues, processPluginPathValue,
      processPluginPathValue.processNamed, hbare, hnamed, hbase, hpre, htrim, lookupA,
      updateA, newPluginInfo, hne]

theorem claim_C1_witness :
    parsePluginNameToPluginInfo
        { newFlagsBuilder with PluginPathValues := [str "protoc-gen-" ++ str "foo"] } [] =
      .ok [(str "foo", { Out := [], Opt := [], Path := str "protoc-gen-" ++ str "foo" })] ∧
    parsePluginNameToPluginInfo
        { newFlagsBuilder with
          PluginPathValues := [(str "protoc-gen-" ++ str "foo") ++ '=' :: str "path/to/foo"] } [] =
      .ok [(str "foo", { Out := [], Opt := [], Path := str "path/to/foo" })] ∧
    parsePluginNameToPluginInfo
        { newFlagsBuilder with
          PluginPathValues := [str "protoc-gen-" ++ str "foo",
            (str "protoc-gen-" ++ str "foo") ++ '=' :: str "path/to/foo"] } [] =
      .error (.duplicatePluginPath (str "foo")) :=
  claim_C1 (str "foo") (str "path/to/foo") (by decide) (by decide)

/-- C1 counterexample to the claim as stated: the named form
`foo=path/to/foo` does not resolve to plugin key `foo`; the name before `=`
must itself carry the `protoc-gen-` prefix, so resolution fails with
`InvalidPluginNamePrefixError` instead. -/
theorem claim_C1_counterexample :
    parsePluginNameToPluginInfo
        { newFlagsBuilder with PluginPathValues := [str "foo=path/to/foo"] } [] =
      .error (.badPluginPathName (str "foo")) := by
  decide

theorem parseArgs_positional_cons (f : flagsBuilder) (s : Str) (rest : List Str)
    (hs : ¬ s.headD ' ' = '-') :
    parseArgs f (s :: rest) =
      match parseArgs f rest with
      | .error e => .error e
      | .ok (f', ps) => .ok (f', s :: ps) := by
  rw [parseArgs, if_pos (Or.inr (Or.inl hs))]

theorem links_mono (e : Str × Str) (fs : fileSys) (qs : List Str) (t : Str)
    (he : e.1 ∉ qs) (h : links fs qs t) : links (e :: fs) qs t := by
  induction qs with
  | nil => trivial
  | cons q rest ih =>
    obtain ⟨h1, h2⟩ := h
    obtain ⟨k, v⟩ := e
    refine ⟨?_, ih (fun hm => he (List.mem_cons_of_mem q hm)) h2⟩
    rw [lookupA, if_neg]
    · exact h1
    · intro hq
      exact he (hq ▸ List.mem_cons_self q rest)

theorem links_chainFS (qs : List Str) (first : Str) (h : qs.Nodup) :
    links (chainFS qs first) qs first := by
  induction qs with
  | nil => trivial
  | cons q rest ih =>
    rw [chainFS]
    refine ⟨?_, ?_⟩
    · rw [lookupA, if_pos rfl]
    · exact links_mono _ _ _ _ (List.nodup_cons.mp h).1 (ih (List.nodup_cons.mp h).2)

theorem fileLines_single_ref (next : Str) (hnext : ∀ c ∈ next, goIsSpace c = false) :
    fileLines ('@' :: next) = ['@' :: next] := by
  have hsp : ∀ c ∈ '@' :: next, goIsSpace c = false := by
    intro c hc
    rcases List.mem_cons.mp hc with rfl | hc
    · decide
    · exact hnext c hc
  have hnl : '\n' ∉ '@' :: next := by
    intro hm
    have := hsp '\n' hm
    simp [goIsSpace] at this
  rw [fileLines, splitOnChar_not_mem '\n' _ hnl]
  simp only [List.map_cons, List.map_nil, trimSpace_of_no_space _ hsp]
  simp

theorem buildRecArgs_chain (fs : fileSys) (qs : List Str) (t : Str) :
    ∀ (fuel : Nat) (f : flagsBuilder) (tbl : pluginMap) (seen : List Str),
    t ∈ seen → (∀ q ∈ qs, q ∉ seen) → qs.Nodup → links fs qs t →
    (∀ q ∈ qs, ∀ c ∈ q, goIsSpace c = false) → (∀ c ∈ t, goIsSpace c = false) →
    qs.length + 1 ≤ fuel →
    buildRecArgs fs fuel f ['@' :: (qs.headD t)] tbl seen =
      .error (.recursiveReference t) := by
  induction qs with
  | nil =>
    intro fuel f tbl seen ht _ _ _ _ _ hfuel
    obtain ⟨u, rfl⟩ : ∃ u, fuel = u + 1 := ⟨fuel - 1, by omega⟩
    rw [buildRecArgs]
    simp only [List.headD_nil]
    rw [if_neg (by simp), if_neg (by simp)]
    simp only [List.drop_succ_cons, List.drop_zero]
    rw [if_pos ht]
  | cons q rest ih =>
    intro fuel f tbl seen ht hq hnd hlinks hsp hst hfuel
    obtain ⟨u, rfl⟩ : ∃ u, fuel = u + 1 := ⟨fuel - 1, by omega⟩
    obtain ⟨hlink1, hlink2⟩ := hlinks
    have hnext : ∀ c ∈ (rest.headD t), goIsSpace c = false := by
      cases rest with
      | nil => exact hst
      | cons r rs => exact hsp r (List.mem_cons_of_mem q (List.mem_cons_self r rs))
    rw [buildRecArgs]
    simp only [List.headD_cons]
    rw [if_neg (by simp), if_neg (by simp)]
    simp only [List.drop_succ_cons, List.drop_zero]
    rw [if_neg (hq q (List.mem_cons_self q rest))]
    have hpa : parseArgs newFlagsBuilder ['@' :: (rest.headD t)] =
        .ok (newFlagsBuilder, ['@' :: (rest.headD t)]) := by
      rw [parseArgs_positional_cons newFlagsBuilder _ [] (by simp)]
      simp [parseArgs]
    have hrec : buildRecArgs fs u newFlagsBuilder ['@' :: (rest.headD t)] tbl (q :: seen) =
        .error (.recursiveReference t) := by
      apply ih u newFlagsBuilder tbl (q :: seen) (List.mem_cons_of_mem q ht)
      · intro r hr
        intro hmem
        rcases List.mem_cons.mp hmem with rfl | hmem
        · exact (List.nodup_cons.mp hnd).1 hr
        · exact hq r (List.mem_cons_of_mem q hr) hmem
      · exact (List.nodup_cons.mp hnd).2
      · exact hlink2
      · intro r hr
        exact hsp r (List.mem_cons_of_mem q hr)
      · exact hst
      · simp only [List.length_cons] at hfuel ⊢
        omega
    have hplug : parsePluginNameToPluginInfo newFlagsBuilder tbl = .ok tbl := rfl
    simp only [hlink1, fileLines_single_ref _ hnext, hpa, hplug, hrec]

/-- C4: expanding a cyclic chain of argument files (each file referencing
the next, the last referencing the first) fails with
`RecursiveReferenceError` naming the repeated first path, at any chain
length, given enough fuel for the chain's depth. -/
theorem claim_C4 (ps : List Str) (fuel : Nat) (h1 : ¬ ps = []) (h2 : ps.Nodup)
    (h3 : ∀ p ∈ ps, ∀ c ∈ p, goIsSpace c = false) (h4 : ps.length + 1 ≤ fuel) :
    Build (chainFS ps (ps.headD [])) fuel newFlagsBuilder ['@' :: ps.headD []] =
      .error (.recursiveReference (ps.headD [])) := by
  obtain ⟨p0, prest, rfl⟩ : ∃ c cs, ps = c :: cs := by
    cases ps with
    | nil => exact absurd rfl h1
    | cons c cs => exact ⟨c, cs, rfl⟩
  simp only [List.headD_cons]
  have hmain : buildRecArgs (chainFS (p0 :: prest) p0) fuel newFlagsBuilder
      ['@' :: p0] [] [] = .error (.recursiveReference p0) := by
    obtain ⟨u, rfl⟩ : ∃ u, fuel = u + 1 := ⟨fuel - 1, by omega⟩
    rw [buildRecArgs]
    rw [if_neg (by simp), if_neg (by simp)]
    simp only [List.drop_succ_cons, List.drop_zero]
    rw [if_neg (List.not_mem_nil p0)]
    have hnd := List.nodup_cons.mp h2
    have hlook : lookupA (chainFS (p0 :: prest) p0) p0 = some ('@' :: prest.headD p0) := by
      rw [chainFS, lookupA, if_pos rfl]
    have hnext : ∀ c ∈ (prest.headD p0), goIsSpace c = false := by
      cases prest with
      | nil => exact h3 p0 (List.mem_cons_self p0 [])
      | cons r rs => exact h3 r (List.mem_cons_of_mem p0 (List.mem_cons_self r rs))
    have hpa : parseArgs newFlagsBuilder ['@' :: (prest.headD p0)] =
        .ok (newFlagsBuilder, ['@' :: (prest.headD p0)]) := by
      rw [parseArgs_positional_cons newFlagsBuilder _ [] (by simp)]
      simp [parseArgs]
    have hplug : parsePluginNameToPluginInfo newFlagsBuilder [] = .ok [] := rfl
    have hrec : buildRecArgs (chainFS (p0 :: prest) p0) u newFlagsBuilder
        ['@' :: (prest.headD p0)] [] [p0] = .error (.recursiveReference p0) := by
      apply buildRecArgs_chain _ prest p0 u newFlagsBuilder [] [p0]
        (List.mem_cons_self p0 []) ?_ hnd.2 ?_ ?_ (h3 p0 (List.mem_cons_self p0 prest)) ?_
      · intro r hr hmem
        rcases List.mem_cons.mp hmem with rfl | hmem
        · exact hnd.1 hr
        · cases hmem
      · rw [chainFS]
        exact links_mono _ _ _ _ hnd.1 (links_chainFS prest p0 hnd.2)
      · intro r hr
        exact h3 r (List.mem_cons_of_mem p0 hr)
      · simp only [List.length_cons] at h4 ⊢
        omega
    simp only [hlook, fileLines_single_ref _ hnext, hpa, hplug, hrec]
  rw [Build, buildRec]
  have hplug : parsePluginNameToPluginInfo newFlagsBuilder [] = .ok [] := rfl
  simp only [hplug, hmain]

theorem claim_C4_witness :
    ¬ ([str "a", str "b"] : List Str) = [] ∧
    Build (chainFS [str "a", str "b"] (str "a")) 4 newFlagsBuilder [str "@a"] =
      .error (.recursiveReference (str "a")) := by
  constructor
  · decide
  · have h := claim_C4 [str "a", str "b"] 4 (by decide) (by decide) (by decide) (by decide)
    simpa using h

theorem buildRecArgs_refines (fs : fileSys) :
    ∀ (fuel : Nat) (f : flagsBuilder) (args : List Str) (tbl : pluginMap) (seen : List Str)
      (paths : List Str) (f' : flagsBuilder) (tbl' : pluginMap) (seen' : List Str),
    buildRecArgs fs fuel f args tbl seen = .ok (paths, f', tbl', seen') →
    expandSpecArgs fs fuel seen args = some (paths, seen') := by
  intro fuel
  induction fuel with
  | zero =>
    intro f args tbl seen paths f' tbl' seen' h
    simp [buildRecArgs] at h
  | succ u ih =>
    intro f args tbl seen paths f' tbl' seen' h
    cases args with
    | nil =>
      simp only [buildRecArgs, Except.ok.injEq, Prod.mk.injEq] at h
      obtain ⟨rfl, -, -, rfl⟩ := h
      rfl
    | cons arg rest =>
      simp only [buildRecArgs] at h
      by_cases hae : arg = []
      · rw [if_pos hae] at h
        cases h
      · rw [if_neg hae] at h
        by_cases hhead : arg.headD ' ' = '@'
        · rw [if_neg (not_not_intro hhead)] at h
          by_cases hmem : arg.drop 1 ∈ seen
          · rw [if_pos hmem] at h
            cases h
          · rw [if_neg hmem] at h
            cases hlook : lookupA fs (arg.drop 1) with
            | none =>
              simp only [hlook] at h
              cases h
            | some data =>
              simp only [hlook] at h
              cases hpa : parseArgs newFlagsBuilder (fileLines data) with
              | error e =>
                simp only [hpa] at h
                cases h
              | ok fbpos =>
                obtain ⟨sub, subArgs⟩ := fbpos
                simp only [hpa] at h
                cases hpl : parsePluginNameToPluginInfo sub tbl with
                | error e =>
                  simp only [hpl] at h
                  cases h
                | ok tbl1 =>
                  simp only [hpl] at h
                  cases hsub : buildRecArgs fs u sub subArgs tbl1 (arg.drop 1 :: seen) with
                  | error e =>
                    simp only [hsub] at h
                    cases h
                  | ok r1 =>
                    obtain ⟨subPaths, sub2, tbl2, seen2⟩ := r1
                    simp only [hsub] at h
                    cases hrest : buildRecArgs fs u (merge f sub2) rest tbl2 seen2 with
                    | error e =>
                      simp only [hrest] at h
                      cases h
                    | ok r2 =>
                      obtain ⟨paths2, f3, tbl3, seen3⟩ := r2
                      simp only [hrest, Except.ok.injEq, Prod.mk.injEq] at h
                      obtain ⟨rfl, -, -, rfl⟩ := h
                      rw [expandSpecArgs]
                      rw [if_neg hae, if_neg (not_not_intro hhead), if_neg hmem]
                      simp only [hlook, hpa,
                        ih sub subArgs tbl1 (arg.drop 1 :: seen) subPaths sub2 tbl2 seen2 hsub,
                        ih (merge f sub2) rest tbl2 seen2 paths2 f3 tbl3 seen3 hrest]
        · rw [if_pos hhead] at h
          cases hrest : buildRecArgs fs u f rest tbl seen with
          | error e =>
            simp only [hrest] at h
            cases h
          | ok r =>
            obtain ⟨paths2, f2, tbl2, seen2⟩ := r
            simp only [hrest, Except.ok.injEq, Prod.mk.injEq] at h
            obtain ⟨rfl, -, -, rfl⟩ := h
            rw [expandSpecArgs]
            rw [if_neg hae, if_pos hhead]
            simp only [ih f rest tbl seen paths2 f2 tbl2 seen2 hrest]

theorem expandSpecArgs_seen_mono (fs : fileSys) :
    ∀ (fuel : Nat) (seen args paths seen' : List Str),
    expandSpecArgs fs fuel seen args = some (paths, seen') → ∀ x ∈ seen, x ∈ seen' := by
  intro fuel
  induction fuel with
  | zero =>
    intro seen args paths seen' h
    simp [expandSpecArgs] at h
  | succ u ih =>
    intro seen args paths seen' h
    cases args with
    | nil =>
      simp only [expandSpecArgs, Option.some.injEq, Prod.mk.injEq] at h
      obtain ⟨-, rfl⟩ := h
      exact fun x hx => hx
    | cons arg rest =>
      simp only [expandSpecArgs] at h
      by_cases hae : arg = []
      · rw [if_pos hae] at h
        cases h
      · rw [if_neg hae] at h
        by_cases hhead : arg.headD ' ' = '@'
        · rw [if_neg (not_not_intro hhead)] at h
          by_cases hmem : arg.drop 1 ∈ seen
          · rw [if_pos hmem] at h
            cases h
          · rw [if_neg hmem] at h
            cases hlook : lookupA fs (arg.drop 1) with
            | none =>
              simp only [hlook] at h
              cases h
            | some data =>
              simp only [hlook] at h
              cases hpa : parseArgs newFlagsBuilder (fileLines data) with
              | error e =>
                simp only [hpa] at h
                cases h
              | ok fbpos =>
                obtain ⟨sub, subArgs⟩ := fbpos
                simp only [hpa] at h
                cases hsub : expandSpecArgs fs u (arg.drop 1 :: seen) subArgs with
                | none =>
                  simp only [hsub] at h
                  cases h
                | some r1 =>
                  obtain ⟨subPaths, seen2⟩ := r1
                  simp only [hsub] at h
                  cases hrest : expandSpecArgs fs u seen2 rest with
                  | none =>
                    simp only [hrest] at h
                    cases h
                  | some r2 =>
                    obtain ⟨paths2, seen3⟩ := r2
                    simp only [hrest, Option.some.injEq, Prod.mk.injEq] at h
                    obtain ⟨-, rfl⟩ := h
                    intro x hx
                    exact ih seen2 rest paths2 seen3 hrest x
                      (ih (arg.drop 1 :: seen) subArgs subPaths seen2 hsub x
                        (List.mem_cons_of_mem _ hx))
        · rw [if_pos hhead] at h
          cases hrest : expandSpecArgs fs u seen rest with
          | none =>
            simp only [hrest] at h
            cases h
          | some r =>
            obtain ⟨paths2, seen2⟩ := r
            simp only [hrest, Option.some.injEq, Prod.mk.injEq] at h
            obtain ⟨-, rfl⟩ := h
            exact ih seen rest paths2 seen2 hrest

theorem buildRecArgs_plain (fs : fileSys) :
    ∀ (fuel : Nat) (f : flagsBuilder) (args : List Str) (tbl : pluginMap) (seen : List Str)
      (paths : List Str) (f' : flagsBuilder) (tbl' : pluginMap) (seen' : List Str),
    (∀ a ∈ args, ¬ a.headD '@' = '@') →
    buildRecArgs fs fuel f args tbl seen = .ok (paths, f', tbl', seen') →
    paths = args := by
  intro fuel
  induction fuel with
  | zero =>
    intro f args tbl seen paths f' tbl' seen' _ h
    simp [buildRecArgs] at h
  | succ u ih =>
    intro f args tbl seen paths f' tbl' seen' hplain h
    cases args with
    | nil =>
      simp only [buildRecArgs, Except.ok.injEq, Prod.mk.injEq] at h
      exact h.1.symm
    | cons arg rest =>
      have harg := hplain arg (List.mem_cons_self arg rest)
      have hae : ¬ arg = [] := by
        intro hc
        subst hc
        exact harg rfl
      have hhead : ¬ arg.headD ' ' = '@' := by
        cases arg with
        | nil => exact absurd rfl hae
        | cons c cs =>
          simpa using harg
      simp only [buildRecArgs] at h
      rw [if_neg hae, if_pos hhead] at h
      cases hrest : buildRecArgs fs u f rest tbl seen with
      | error e =>
        simp only [hrest] at h
        cases h
      | ok r =>
        obtain ⟨paths2, f2, tbl2, seen2⟩ := r
        simp only [hrest, Except.ok.injEq, Prod.mk.injEq] at h
        obtain ⟨rfl, -⟩ := h
        rw [ih f rest tbl seen paths2 f2 tbl2 seen2
          (fun a ha => hplain a (List.mem_cons_of_mem arg ha)) hrest]

/-- C3: whenever the expansion succeeds, the resolved input-path list is
exactly the one computed by the pure specification-side depth-first
expansion `expandSpecArgs` (positional tokens in encounter order, each
`@file` replaced in place by the paths its expansion contributes); in
particular a successful `Build` over a vector with no `@` tokens returns
the vector itself as the input-path list. -/
theorem claim_C3 :
    (∀ (fs : fileSys) (fuel : Nat) (f : flagsBuilder) (args : List Str)
      (tbl : pluginMap) (seen : List Str) (paths : List Str) (f' : flagsBuilder)
      (tbl' : pluginMap) (seen' : List Str),
      buildRec fs fuel f args tbl seen = .ok (paths, f', tbl', seen') →
      expandSpecArgs fs fuel seen args = some (paths, seen')) ∧
    (∀ (fs : fileSys) (fuel : Nat) (f : flagsBuilder) (args : List Str) (e : env),
      (∀ a ∈ args, ¬ a.headD '@' = '@') →
      Build fs fuel f args = .ok e → e.FilePaths = args) := by
  constructor
  · intro fs fuel f args tbl seen paths f' tbl' seen' h
    rw [buildRec] at h
    cases hpl : parsePluginNameToPluginInfo f tbl with
    | error e =>
      rw [hpl] at h
      cases h
    | ok tbl1 =>
      rw [hpl] at h
      exact buildRecArgs_refines fs fuel f args tbl1 seen paths f' tbl' seen' h
  · intro fs fuel f args e hplain h
    obtain ⟨paths, f', tbl, seen, hrec, -, -, -, he⟩ := Build_ok_elim fs fuel f args e h
    subst he
    rw [buildRec] at hrec
    cases hpl : parsePluginNameToPluginInfo f [] with
    | error er =>
      rw [hpl] at hrec
      cases hrec
    | ok tbl1 =>
      rw [hpl] at hrec
      have : paths = args :=
        buildRecArgs_plain fs fuel f args tbl1 [] paths f' tbl seen hplain hrec
      subst this
      rfl

theorem claim_C3_witness :
    buildRec [(str "f", str "y.proto")] 5 newFlagsBuilder [str "x.proto", str "@f"] [] [] =
      .ok ([str "x.proto", str "y.proto"], newFlagsBuilder, [], [str "f"]) ∧
    expandSpecArgs [(str "f", str "y.proto")] 5 [] [str "x.proto", str "@f"] =
      some ([str "x.proto", str "y.proto"], [str "f"]) ∧
    (env.mk
      { IncludeDirPaths := [str "."], IncludeImports := false, IncludeSourceInfo := false,
        PrintFreeFieldNumbers := false, Output := [], ErrorFormat := str "gcc" }
      [] [str "a.proto", str "b.proto"]).FilePaths = [str "a.proto", str "b.proto"] := by
  refine ⟨by decide, ?_, ?_⟩
  · exact claim_C3.1 [(str "f", str "y.proto")] 5 newFlagsBuilder [str "x.proto", str "@f"]
      [] [] [str "x.proto", str "y.proto"] newFlagsBuilder [] [str "f"] (by decide)
  · exact claim_C3.2 [] 5 newFlagsBuilder [str "a.proto", str "b.proto"] _
      (by decide) (by decide)

/-- C9: the visited-path set is shared across the whole chain and paths are
never removed, so two sibling `@file` tokens naming the same path fail with
`RecursiveReferenceError` even with no cyclic reference between files:
whenever a single `@p` expansion succeeds, the same expansion followed by a
second `@p` is rejected. -/
theorem claim_C9 (fs : fileSys) (fuel : Nat) (f : flagsBuilder) (tbl : pluginMap)
    (seen : List Str) (p : Str) (paths : List Str) (f1 : flagsBuilder)
    (tbl1 : pluginMap) (seen1 : List Str)
    (h : buildRec fs fuel f ['@' :: p] tbl seen = .ok (paths, f1, tbl1, seen1)) :
    buildRec fs fuel f ['@' :: p, '@' :: p] tbl seen = .error (.recursiveReference p) := by
  rw [buildRec] at h ⊢
  cases hpl0 : parsePluginNameToPluginInfo f tbl with
  | error e =>
    rw [hpl0] at h
    cases h
  | ok tblA =>
    rw [hpl0] at h
    show buildRecArgs fs fuel f ['@' :: p, '@' :: p] tblA seen =
      .error (.recursiveReference p)
    cases fuel with
    | zero =>
      simp [buildRecArgs] at h
    | succ u =>
      simp only [buildRecArgs] at h ⊢
      rw [if_neg (by simp), if_neg (by simp)] at h ⊢
      simp only [List.drop_succ_cons, List.drop_zero] at h ⊢
      by_cases hmem : p ∈ seen
      · rw [if_pos hmem] at h
        cases h
      · rw [if_neg hmem] at h ⊢
        cases hlook : lookupA fs p with
        | none =>
          simp only [hlook] at h
          cases h
        | some data =>
          simp only [hlook] at h ⊢
          cases hpa : parseArgs newFlagsBuilder (fileLines data) with
          | error e =>
            simp only [hpa] at h
            cases h
          | ok fbpos =>
            obtain ⟨sub, subArgs⟩ := fbpos
            simp only [hpa] at h ⊢
            cases hpl : parsePluginNameToPluginInfo sub tblA with
            | error e =>
              simp only [hpl] at h
              cases h
            | ok tblB =>
              simp only [hpl] at h ⊢
              cases hsub : buildRecArgs fs u sub subArgs tblB (p :: seen) with
              | error e =>
                simp only [hsub] at h
                cases h
              | ok r1 =>
                obtain ⟨subPaths, sub2, tbl2, seen2⟩ := r1
                simp only [hsub] at h ⊢
                have hp2 : p ∈ seen2 := by
                  have hspec := buildRecArgs_refines fs u sub subArgs tblB (p :: seen)
                    subPaths sub2 tbl2 seen2 hsub
                  exact expandSpecArgs_seen_mono fs u (p :: seen) subArgs subPaths seen2
                    hspec p (List.mem_cons_self p seen)
                cases hrest : buildRecArgs fs u (merge f sub2) [] tbl2 seen2 with
                | error e =>
                  simp only [hrest] at h
                  cases h
                | ok r2 =>
                  cases u with
                  | zero =>
                    simp [buildRecArgs] at hrest
                  | succ w =>
                    simp only [buildRecArgs] at hrest ⊢
                    rw [if_neg (by simp), if_neg (by simp)]
                    simp only [List.drop_succ_cons, List.drop_zero]
                    rw [if_pos hp2]

theorem claim_C9_witness :
    buildRec [(str "f", str "x.proto")] 5 newFlagsBuilder [str "@f"] [] [] =
      .ok ([str "x.proto"], newFlagsBuilder, [], [str "f"]) ∧
    buildRec [(str "f", str "x.proto")] 5 newFlagsBuilder [str "@f", str "@f"] [] [] =
      .error (.recursiveReference (str "f")) := by
  constructor
  · decide
  · have h := claim_C9 [(str "f", str "x.proto")] 5 newFlagsBuilder [] []
      (str "f") [str "x.proto"] newFlagsBuilder [] [str "f"] (by decide)
    simpa using h
